import Mathlib

/-!
Shallow embedding of the mini-lsm durability pipeline (log writer, log record
codec, log reader, write batch, write-batch builder, memtable, database
facade).  Bytes are modelled as `Nat` values (< 256 where the code writes
them), byte buffers and files as `List Nat`, fallible code as `Except` /
`Option`, and Rust panics as `Option.none` outcomes.  Definitions are
translated from the Rust sources file by file; spec-level helper functions
(chunk decomposition, fragment-type words, entry encodings) are introduced
for stating theorems and are clearly marked.
-/

set_option maxHeartbeats 1000000


/-- Constants from log_record.rs. -/
def DEFAULT_BLOCK_SIZE : Nat := 32 * 1024

def LOG_RECORD_HEADER_SIZE : Nat := 7

def MIN_RECORD_SIZE : Nat := LOG_RECORD_HEADER_SIZE + 1

def BLOCK_PADDING : List Nat := List.replicate LOG_RECORD_HEADER_SIZE 0

/-- Big-endian serialization of a u32 (`u32::to_be_bytes`). -/
def u32_to_be_bytes (n : Nat) : List Nat :=
  [n / 2 ^ 24 % 256, n / 2 ^ 16 % 256, n / 2 ^ 8 % 256, n % 256]

/-- Big-endian serialization of a u16 (`u16::to_be_bytes`). -/
def u16_to_be_bytes (n : Nat) : List Nat :=
  [n / 2 ^ 8 % 256, n % 256]

/-- Big-endian deserialization of a u32 from a 4-byte slice
(`u32::from_be_bytes`). -/
def u32_from_be_bytes (l : List Nat) : Nat :=
  l.getD 0 0 * 2 ^ 24 + l.getD 1 0 * 2 ^ 16 + l.getD 2 0 * 2 ^ 8 + l.getD 3 0

/-- Big-endian deserialization of a u16 from a 2-byte slice
(`u16::from_be_bytes`). -/
def u16_from_be_bytes (l : List Nat) : Nat :=
  l.getD 0 0 * 2 ^ 8 + l.getD 1 0

/-- Big-endian deserialization of a u8 from a 1-byte slice
(`u8::from_be_bytes`). -/
def u8_from_be_bytes (l : List Nat) : Nat :=
  l.getD 0 0

/-- One bit-step of the reflected CRC-32C computation (Castagnoli polynomial,
reflected representation 0x82F63B78), as computed by the `crc32c` crate used
by log_record.rs. -/
def crc32cStep (crc : Nat) : Nat :=
  if crc % 2 = 1 then (crc / 2) ^^^ 0x82F63B78 else crc / 2

/-- Fold one input byte into the running CRC-32C state (eight bit-steps). -/
def crc32cByte (crc b : Nat) : Nat :=
  crc32cStep (crc32cStep (crc32cStep (crc32cStep
    (crc32cStep (crc32cStep (crc32cStep (crc32cStep (crc ^^^ b))))))))

/-- CRC-32C of a byte sequence (`crc32c::crc32c`): initial state
0xFFFFFFFF, final xor 0xFFFFFFFF. -/
def crc32c (data : List Nat) : Nat :=
  (data.foldl crc32cByte 0xFFFFFFFF) ^^^ 0xFFFFFFFF

/-- Error kinds from error.rs.  `ioError` stands for `Error::Io` (the wrapped
`std::io::Error` payload is irrelevant to the model); `tryFromSlice` stands
for `Error::TryFromSlice`. -/
inductive Err where
  | valueError (msg : String)
  | walRecordTooSmall (actual minimum : Nat)
  | invalidSliceLength (expected actual : Nat)
  | invalidRecordType (b : Nat)
  | invalidCrc (expected actual : Nat)
  | ioError
  | tryFromSlice
deriving DecidableEq, Repr

/-- Record types from log_record.rs. -/
inductive RecordType where
  | none
  | first
  | middle
  | last
  | full
deriving DecidableEq, Repr

/-- `RecordType::value` (the discriminant byte). -/
def RecordType.value : RecordType → Nat
  | .none => 0
  | .first => 1
  | .middle => 2
  | .last => 3
  | .full => 4

/-- `RecordType::from_u8` via the `FromPrimitive` derive. -/
def RecordType.from_u8 : Nat → Option RecordType
  | 0 => some .none
  | 1 => some .first
  | 2 => some .middle
  | 3 => some .last
  | 4 => some .full
  | _ => Option.none

/-- A log record (log_record.rs).  `payload` is the borrowed byte slice. -/
structure LogRecord where
  crc : Nat
  size : Nat
  rtype : RecordType
  payload : List Nat
deriving DecidableEq, Repr

/-- `LogRecord::new`.  The Rust code converts `payload.len()` to `u16` with
`unwrap`; every call site in the log writer passes a payload of at most
`DEFAULT_BLOCK_SIZE - LOG_RECORD_HEADER_SIZE` bytes, where the conversion
cannot fail, so the model keeps the length as a `Nat`.  (The panicking use of
`LogRecord::new` on an oversized slice inside `from_serialized_bytes` is
modelled there explicitly.) -/
def LogRecord.new (rtype : RecordType) (payload : List Nat) : LogRecord :=
  { crc := crc32c payload, size := payload.length, rtype := rtype, payload := payload }

/-- `LogRecord::len`: header plus payload length. -/
def LogRecord.len (r : LogRecord) : Nat :=
  LOG_RECORD_HEADER_SIZE + r.payload.length

/-- `LogRecord::validate_crc`. -/
def LogRecord.validate_crc (r : LogRecord) : Except Err Unit :=
  if r.crc = crc32c r.payload then .ok ()
  else .error (.invalidCrc r.crc (crc32c r.payload))

/-- The byte image of a record as emitted by `LogWriter::append_record`
(crc, size, type, payload, all big-endian).  Spec-level helper used to
describe file contents. -/
def LogRecord.serialize (r : LogRecord) : List Nat :=
  u32_to_be_bytes r.crc ++ u16_to_be_bytes r.size ++ [r.rtype.value] ++ r.payload

/-- `LogRecord::from_serialized_bytes`.  The result is `Option.none` where
the Rust code panics:
* building the phantom record (`LogRecord::new(RecordType::Full, bytes)`)
  converts `bytes.len()` to `u16` with `unwrap`, which panics whenever the
  input slice is longer than 65535 bytes;
* the payload sub-slice `bytes[7 .. 7 + size]` panics when the embedded size
  field exceeds the remaining bytes.
Otherwise the decoded record or the decoding error is returned, with the
checks in the order the Rust code performs them. -/
def LogRecord.from_serialized_bytes (bytes : List Nat) :
    Option (Except Err LogRecord) :=
  if 65535 < bytes.length then Option.none
  else if bytes.length < MIN_RECORD_SIZE then
    some (.error (.walRecordTooSmall bytes.length MIN_RECORD_SIZE))
  else
    let payload_size := u16_from_be_bytes ((bytes.drop 4).take 2)
    let record_type := u8_from_be_bytes ((bytes.drop 6).take 1)
    match RecordType.from_u8 record_type with
    | Option.none => some (.error (.invalidRecordType record_type))
    | some rtype =>
        if LOG_RECORD_HEADER_SIZE + payload_size ≤ bytes.length then
          some (.ok { crc := u32_from_be_bytes (bytes.take 4),
                      size := payload_size,
                      rtype := rtype,
                      payload := (bytes.drop LOG_RECORD_HEADER_SIZE).take payload_size })
        else Option.none

/-- Cursor over an immutable byte slice (buffer_consumer.rs).  The Rust code
keeps `pos` and `remaining` in interior-mutable cells; the model threads the
updated cursor explicitly. -/
structure BufferConsumer where
  buf : List Nat
  pos : Nat
  remaining : Nat
deriving DecidableEq, Repr

/-- `BufferConsumer::new`. -/
def BufferConsumer.new (buf : List Nat) : BufferConsumer :=
  { buf := buf, pos := 0, remaining := buf.length }

/-- `BufferConsumer::consume`: returns the next `min(n, remaining)` bytes and
the advanced cursor. -/
def BufferConsumer.consume (c : BufferConsumer) (n : Nat) :
    List Nat × BufferConsumer :=
  let bytes_to_consume := min n c.remaining
  (((c.buf.drop c.pos).take bytes_to_consume),
   { c with pos := c.pos + bytes_to_consume,
            remaining := c.remaining - bytes_to_consume })

/-- `BufferConsumer::done`. -/
def BufferConsumer.done (c : BufferConsumer) : Bool :=
  c.remaining = 0

/-- Buffered byte-appending file writer (file_writer.rs).  `data` is the
bytes written so far.  `failPlan` injects the underlying I/O failures the
spec allows (`Error::Io`): each non-empty `append` consults and consumes one
entry of the plan and fails if it is `true`; an exhausted plan means no
failure.  (Flushing the `BufWriter` to the page cache has no observable
effect on the byte-level model.) -/
structure FileWriter where
  data : List Nat
  failPlan : List Bool
deriving DecidableEq, Repr

/-- `FileWriter::append`.  An empty append returns `Ok` immediately without
touching the file (file_writer.rs line 48).  On an injected I/O failure the
`BufWriter` is left in an "unspecified but safe" state (spec 4.2); the model
keeps the pre-call bytes. -/
def FileWriter.append (fw : FileWriter) (data : List Nat) :
    Except Err FileWriter :=
  if data = [] then .ok fw
  else
    match fw.failPlan with
    | true :: rest => .error .ioError
    | false :: rest => .ok { data := fw.data ++ data, failPlan := rest }
    | [] => .ok { data := fw.data ++ data, failPlan := [] }

/-- `FileWriter::flush`: pushes buffered bytes to the page cache; no
observable effect in the byte-level model. -/
def FileWriter.flush (fw : FileWriter) : Except Err FileWriter :=
  .ok fw

/-- Write statistics (log_writer.rs `Stats`). -/
structure Stats where
  record_count : Nat
deriving DecidableEq, Repr

/-- The log writer (log_writer.rs). -/
structure LogWriter where
  fw : FileWriter
  block_pos : Nat
  stats : Stats
deriving DecidableEq, Repr

/-- A fresh log writer on an empty (truncated) file, with an I/O failure
plan for the underlying file writer. -/
def LogWriter.fresh (failPlan : List Bool) : LogWriter :=
  { fw := { data := [], failPlan := failPlan }, block_pos := 0,
    stats := { record_count := 0 } }

/-- `LogWriter::remaining_block_capacity`. -/
def LogWriter.remaining_block_capacity (lw : LogWriter) : Nat :=
  DEFAULT_BLOCK_SIZE - lw.block_pos

/-- `LogWriter::add_block_padding`: appends `BLOCK_SIZE - block_pos` zero
bytes when fewer than `MIN_RECORD_SIZE` bytes remain in the current block,
then resets `block_pos` to 0.  Note that the reset is unconditional in the
source (log_writer.rs line 66 sits outside the `if`); on an I/O error the
`?` operator returns before the reset. -/
def LogWriter.add_block_padding (lw : LogWriter) : Except Err LogWriter :=
  let remaining_block_size := DEFAULT_BLOCK_SIZE - lw.block_pos
  if remaining_block_size < MIN_RECORD_SIZE then
    match lw.fw.append (BLOCK_PADDING.take remaining_block_size) with
    | .error e => .error e
    | .ok fw' => .ok { lw with fw := fw', block_pos := 0 }
  else .ok { lw with block_pos := 0 }

/-- `LogWriter::append_record`: four file-writer appends (crc, size, type,
payload). -/
def LogWriter.append_record (lw : LogWriter) (r : LogRecord) :
    Except Err LogWriter :=
  match lw.fw.append (u32_to_be_bytes r.crc) with
  | .error e => .error e
  | .ok fw1 =>
    match fw1.append (u16_to_be_bytes r.size) with
    | .error e => .error e
    | .ok fw2 =>
      match fw2.append [r.rtype.value] with
      | .error e => .error e
      | .ok fw3 =>
        match fw3.append r.payload with
        | .error e => .error e
        | .ok fw4 => .ok { lw with fw := fw4 }

/-- `Stats::consume_record`. -/
def Stats.consume_record (s : Stats) : Stats :=
  { record_count := s.record_count + 1 }

/-- The `while !pconsumer.done()` loop body of `LogWriter::append`
(log_writer.rs lines 102-129).  Returns the loop result, the final writer
state, and the emitted records in order.  On an error the records emitted
before the failure are not reported (the Rust caller never sees them). -/
def LogWriter.appendLoop (lw : LogWriter) (c : BufferConsumer)
    (record_count : Nat) : Except Err Unit × LogWriter × List LogRecord :=
  if h : c.remaining = 0 then (.ok (), lw, [])
  else
    match hpad : lw.add_block_padding with
    | .error e => (.error e, lw, [])
    | .ok lw1 =>
      let consume_count :=
        min c.remaining (lw1.remaining_block_capacity - LOG_RECORD_HEADER_SIZE)
      let step := c.consume consume_count
      let rtype :=
        if step.2.done then
          (if record_count = 0 then RecordType.full else RecordType.last)
        else
          (if record_count = 0 then RecordType.first else RecordType.middle)
      let record := LogRecord.new rtype step.1
      match lw1.append_record record with
      | .error e => (.error e, lw1, [])
      | .ok lw2 =>
        let lw3 := { lw2 with stats := lw2.stats.consume_record,
                              block_pos := lw2.block_pos + record.len }
        let rest := LogWriter.appendLoop lw3 step.2 (record_count + 1)
        (rest.1, rest.2.1, record :: rest.2.2)
termination_by c.remaining
decreasing_by
  have hbp : lw1.block_pos = 0 := by
    unfold LogWriter.add_block_padding at hpad
    by_cases hc : DEFAULT_BLOCK_SIZE - lw.block_pos < MIN_RECORD_SIZE
    · simp only [hc, if_true] at hpad
      cases hfw : lw.fw.append (BLOCK_PADDING.take (DEFAULT_BLOCK_SIZE - lw.block_pos)) with
      | error e => rw [hfw] at hpad; cases hpad
      | ok fw' => rw [hfw] at hpad; cases hpad; rfl
    · simp only [hc, if_false] at hpad
      cases hpad; rfl
  simp only [BufferConsumer.consume, LogWriter.remaining_block_capacity, hbp]
  have : 1 ≤ min c.remaining (DEFAULT_BLOCK_SIZE - 0 - LOG_RECORD_HEADER_SIZE) := by
    simp [DEFAULT_BLOCK_SIZE, LOG_RECORD_HEADER_SIZE]
    omega
  omega

/-- `LogWriter::append` (log_writer.rs lines 95-131): reject an empty
payload, fragment via the loop, then flush. -/
def LogWriter.append (lw : LogWriter) (payload : List Nat) :
    Except Err Unit × LogWriter × List LogRecord :=
  if payload = [] then
    (.error (.valueError "Payload is empty"), lw, [])
  else
    let res := LogWriter.appendLoop lw (BufferConsumer.new payload) 0
    match res.1 with
    | .error e => (.error e, res.2.1, res.2.2)
    | .ok () =>
      match res.2.1.fw.flush with
      | .error e => (.error e, res.2.1, res.2.2)
      | .ok fw' => (.ok (), { res.2.1 with fw := fw' }, res.2.2)

/-- Log reader iterator state (log_reader.rs `Iter`).  The `BufReader` with
capacity `DEFAULT_BLOCK_SIZE * 4` is modelled by `buf` (the current fill),
`fileRest` (the file bytes not yet read into the buffer), and the cursor
bookkeeping fields of the source.  A fill reads
`min(capacity, remaining file)` bytes, the behaviour of `fill_buf` on a
regular file. -/
structure Iter where
  fileRest : List Nat
  buf : List Nat
  bytes_remaining : Nat
  bytes_read : Nat
  curr_idx : Nat
deriving DecidableEq, Repr

/-- `LogReader::to_iter`: a fresh iterator over a file's bytes. -/
def Iter.init (file : List Nat) : Iter :=
  { fileRest := file, buf := [], bytes_remaining := 0, bytes_read := 0,
    curr_idx := 0 }

/-- `Iter::min_record_size_bytes_remaining`. -/
def Iter.min_record_size_bytes_remaining (it : Iter) : Bool :=
  decide (MIN_RECORD_SIZE ≤ it.bytes_remaining)

/-- `Iter::consume_remaining_bytes` followed by `Iter::fill_buffer`: discard
the current fill (including its partial tail) and read the next
`capacity`-sized chunk of the file, resetting the cursor. -/
def Iter.refill (it : Iter) : Iter :=
  let newBuf := it.fileRest.take (DEFAULT_BLOCK_SIZE * 4)
  { fileRest := it.fileRest.drop (DEFAULT_BLOCK_SIZE * 4),
    buf := newBuf,
    bytes_remaining := newBuf.length,
    bytes_read := newBuf.length,
    curr_idx := 0 }

/-- The outcome of one `Iter::next` call: end of iteration (`None`), a Rust
panic inside the record decoder, a decoding/IO error, or a record. -/
inductive ReadOutcome where
  | eof
  | panicked
  | err (e : Err)
  | record (r : LogRecord)
deriving DecidableEq, Repr

/-- `Iter::next` (log_reader.rs lines 102-119): refill when fewer than
`MIN_RECORD_SIZE` bytes remain in the buffer, report end-of-file if a refill
does not help, otherwise decode a record at the cursor
(`Iter::read_record`) and advance by `record.len()`.  There is no
block-boundary handling in the source. -/
def Iter.next (it : Iter) : ReadOutcome × Iter :=
  let it1 := if it.min_record_size_bytes_remaining then it else it.refill
  if it1.min_record_size_bytes_remaining then
    match LogRecord.from_serialized_bytes (it1.buf.drop it1.curr_idx) with
    | Option.none => (.panicked, it1)
    | some (.error e) => (.err e, it1)
    | some (.ok r) =>
        (.record r,
         { it1 with curr_idx := it1.curr_idx + r.len,
                    bytes_remaining := it1.bytes_remaining - r.len })
  else (.eof, it1)

/-- A write batch (write_batch.rs): a raw byte buffer with a 16-byte header
(big-endian u32 count + 12 reserved zero bytes) followed by packed
entries. -/
structure WriteBatch where
  entries : List Nat
deriving DecidableEq, Repr

/-- write_batch.rs `HEADER_SIZE`. -/
def WB_HEADER_SIZE : Nat := 16

/-- `WriteBatch::new`: a header-only buffer. -/
def WriteBatch.new : WriteBatch :=
  { entries := List.replicate WB_HEADER_SIZE 0 }

/-- `WriteBatch::count`: the big-endian u32 at offset 0. -/
def WriteBatch.count (wb : WriteBatch) : Nat :=
  u32_from_be_bytes (wb.entries.take 4)

/-- `WriteBatch::increment_count`.  The Rust `u32` addition wraps modulo
2^32 (release): the first four bytes are overwritten in place. -/
def WriteBatch.increment_count (wb : WriteBatch) : WriteBatch :=
  { entries := u32_to_be_bytes ((wb.count + 1) % 2 ^ 32) ++ wb.entries.drop 4 }

/-- `WriteBatch::insert_or_update`: append big-endian key length, key bytes,
big-endian value length, then the value bytes when non-empty, and increment
the count.  (The Rust `u32::try_from(len).unwrap()` panics for lengths ≥
2^32; theorems carry that bound as a hypothesis.) -/
def WriteBatch.insert_or_update (wb : WriteBatch) (key value : List Nat) :
    WriteBatch :=
  WriteBatch.increment_count
    { entries := wb.entries ++ u32_to_be_bytes key.length ++ key ++
        u32_to_be_bytes value.length ++
        (if 0 < value.length then value else []) }

/-- `WriteBatch::delete`: an entry with `value_len == 0`. -/
def WriteBatch.delete (wb : WriteBatch) (key : List Nat) : WriteBatch :=
  wb.insert_or_update key []

/-- `WriteBatch::len`. -/
def WriteBatch.len (wb : WriteBatch) : Nat :=
  wb.entries.length

/-- `WriteBatch::is_empty`. -/
def WriteBatch.is_empty (wb : WriteBatch) : Bool :=
  wb.count = 0

/-- `WriteBatch::as_bytes`. -/
def WriteBatch.as_bytes (wb : WriteBatch) : List Nat :=
  wb.entries

/-- One step of `WriteBatchIterator::next` at absolute position `pos` of
`payload`: stop when the position has reached the end, otherwise read
`key_len | key | value_len | value?` (big-endian) and return the entry
(value `none` for a tombstone) with the advanced position.  Out-of-bounds
slices, which panic in Rust, cannot arise on the well-formed buffers the
claims quantify over; `take`/`drop` truncate. -/
def WriteBatchIterator.nextAt (payload : List Nat) (pos : Nat) :
    Option ((List Nat × Option (List Nat)) × Nat) :=
  if pos = payload.length then Option.none
  else
    let key_len := u32_from_be_bytes ((payload.drop pos).take 4)
    let key := (payload.drop (pos + 4)).take key_len
    let value_len := u32_from_be_bytes ((payload.drop (pos + 4 + key_len)).take 4)
    if value_len = 0 then
      some ((key, Option.none), pos + 4 + key_len + 4)
    else
      some ((key, some ((payload.drop (pos + 4 + key_len + 4)).take value_len)),
            pos + 4 + key_len + 4 + value_len)

/-- Collect all entries yielded by repeatedly calling
`WriteBatchIterator::next`, with fuel (each entry occupies at least 8
payload bytes, so `payload.length` steps always suffice). -/
def WriteBatchIterator.collect (fuel : Nat) (payload : List Nat) (pos : Nat) :
    List (List Nat × Option (List Nat)) :=
  match fuel with
  | 0 => []
  | fuel + 1 =>
    match WriteBatchIterator.nextAt payload pos with
    | Option.none => []
    | some (entry, pos') => entry :: WriteBatchIterator.collect fuel payload pos'

/-- `WriteBatch::iter` run to completion: iteration starts at byte 16. -/
def WriteBatch.iterToList (wb : WriteBatch) :
    List (List Nat × Option (List Nat)) :=
  WriteBatchIterator.collect wb.entries.length wb.entries WB_HEADER_SIZE

/-- The write-batch builder (write_batch.rs `WriteBatchBuilder`).  `new`
clears the inner batch's buffer entirely (including the header). -/
structure WriteBatchBuilder where
  wb : WriteBatch
  ready : Bool
deriving DecidableEq, Repr

/-- `WriteBatchBuilder::new`. -/
def WriteBatchBuilder.new : WriteBatchBuilder :=
  { wb := { entries := [] }, ready := false }

/-- `WriteBatchBuilder::accumulate_record`: validate the CRC, then extend
the buffer with the record payload; `Full`/`Last` set `ready`.  A
`None`-typed record hits `assert!(false)` in the source — a panic, modelled
as `Option.none`. -/
def WriteBatchBuilder.accumulate_record (b : WriteBatchBuilder)
    (r : LogRecord) : Option (Except Err WriteBatchBuilder) :=
  match r.validate_crc with
  | .error e => some (.error e)
  | .ok () =>
    match r.rtype with
    | .first => some (.ok { b with wb := { entries := b.wb.entries ++ r.payload } })
    | .middle => some (.ok { b with wb := { entries := b.wb.entries ++ r.payload } })
    | .full => some (.ok { wb := { entries := b.wb.entries ++ r.payload }, ready := true })
    | .last => some (.ok { wb := { entries := b.wb.entries ++ r.payload }, ready := true })
    | .none => Option.none

/-- `WriteBatchBuilder::consume`. -/
def WriteBatchBuilder.consume (_b : WriteBatchBuilder) : WriteBatchBuilder :=
  { wb := { entries := [] }, ready := false }

/-- `WriteBatchBuilder::is_ready`. -/
def WriteBatchBuilder.is_ready (b : WriteBatchBuilder) : Bool :=
  b.ready

/-- The memtable (memtable.rs): a `BTreeMap<Vec<u8>, Vec<u8>>` with keys
compared lexicographically as unsigned bytes, modelled as a
lexicographically sorted association list so that equal maps have equal
representations. -/
def byteLt : List Nat → List Nat → Bool
  | [], [] => false
  | [], _ :: _ => true
  | _ :: _, [] => false
  | a :: as, b :: bs => if a < b then true else if b < a then false else byteLt as bs

/-- Memtable state. -/
structure Memtable where
  table : List (List Nat × List Nat)
deriving DecidableEq, Repr

/-- `Memtable::new`. -/
def Memtable.new : Memtable :=
  { table := [] }

/-- Sorted-position insert-or-replace backing `Memtable::insert_or_update`
(`BTreeMap::insert`). -/
def insertSorted (key value : List Nat) :
    List (List Nat × List Nat) → List (List Nat × List Nat)
  | [] => [(key, value)]
  | (k, v) :: rest =>
    if byteLt key k then (key, value) :: (k, v) :: rest
    else if key = k then (key, value) :: rest
    else (k, v) :: insertSorted key value rest

/-- `Memtable::insert_or_update`. -/
def Memtable.insert_or_update (mt : Memtable) (key value : List Nat) :
    Memtable :=
  { table := insertSorted key value mt.table }

/-- Key removal backing `Memtable::delete` (`BTreeMap::remove`). -/
def removeSorted (key : List Nat) :
    List (List Nat × List Nat) → List (List Nat × List Nat)
  | [] => []
  | (k, v) :: rest =>
    if key = k then rest else (k, v) :: removeSorted key rest

/-- `Memtable::delete`: hard removal, returning whether the key existed. -/
def Memtable.delete (mt : Memtable) (key : List Nat) : Bool × Memtable :=
  ((mt.table.any fun kv => kv.1 = key), { table := removeSorted key mt.table })

/-- `Memtable::get`. -/
def Memtable.get (mt : Memtable) (key : List Nat) : Option (List Nat) :=
  (mt.table.find? fun kv => kv.1 = key).map Prod.snd

/-- Modelled from the spec: `wal_recovery::consume_write_batch` is called
from `DB::write` (lib.rs line 59) but is absent from the sources; spec 4.10
says "apply each entry in order to the memtable", with inserts for
value-carrying entries and deletes for tombstones (spec 4.9). -/
def consume_write_batch (mt : Memtable) (wb : WriteBatch) : Memtable :=
  wb.iterToList.foldl
    (fun mt entry =>
      match entry.2 with
      | some value => mt.insert_or_update entry.1 value
      | Option.none => (mt.delete entry.1).2)
    mt

/-- The database facade (lib.rs `DB`). -/
structure DB where
  memtable : Memtable
  log_writer : LogWriter
deriving DecidableEq, Repr

/-- `DB::write` (lib.rs lines 57-61): append the batch's bytes to the log;
on success apply the batch to the memtable.  The `?` operator surfaces a
log-append error before any memtable mutation. -/
def DB.write (db : DB) (wb : WriteBatch) : Except Err Unit × DB :=
  let res := db.log_writer.append wb.as_bytes
  match res.1 with
  | .error e => (.error e, { db with log_writer := res.2.1 })
  | .ok () =>
    (.ok (), { memtable := consume_write_batch db.memtable wb,
               log_writer := res.2.1 })

/-- `DB::insert_or_update`: a one-entry batch routed through `DB::write`. -/
def DB.insert_or_update (db : DB) (key value : List Nat) :
    Except Err Unit × DB :=
  db.write (WriteBatch.new.insert_or_update key value)

/-- `DB::delete`: a one-entry delete batch routed through `DB::write`. -/
def DB.deleteKey (db : DB) (key : List Nat) : Except Err Unit × DB :=
  db.write (WriteBatch.new.delete key)

/-- Write a sequence of payloads with successive `LogWriter::append` calls,
stopping at the first error (as a caller using `?` would). -/
def writeAllFrom (lw : LogWriter) : List (List Nat) → Except Err LogWriter
  | [] => .ok lw
  | p :: ps =>
    let res := lw.append p
    match res.1 with
    | .error e => .error e
    | .ok () => writeAllFrom res.2.1 ps

/-- Write a sequence of payloads to a fresh truncated log file with no
injected I/O failures. -/
def writeAll (payloads : List (List Nat)) : Except Err LogWriter :=
  writeAllFrom (LogWriter.fresh []) payloads

/-- Drive the log reader and the write-batch builder as the recovery loop
and the round-trip tests do: feed every yielded record to
`accumulate_record`, record the accumulated buffer each time `is_ready()`
becomes true, then `consume()`.  Returns `none` if the reader or builder
panics, hits an error, or fuel runs out; otherwise the list of reconstructed
payload buffers in order. -/
def runPipeline (fuel : Nat) (it : Iter) (b : WriteBatchBuilder)
    (acc : List (List Nat)) : Option (List (List Nat)) :=
  match fuel with
  | 0 => Option.none
  | fuel + 1 =>
    let step := it.next
    match step.1 with
    | .eof => some acc
    | .panicked => Option.none
    | .err _ => Option.none
    | .record r =>
      match b.accumulate_record r with
      | Option.none => Option.none
      | some (.error _) => Option.none
      | some (.ok b') =>
        if b'.is_ready then
          runPipeline fuel step.2 b'.consume (acc ++ [b'.wb.entries])
        else
          runPipeline fuel step.2 b' acc

/-- The claimed log round-trip: append the payloads to a fresh log, then
read the file back through the log reader and the write-batch builder,
collecting the reconstructed buffers. -/
def logRoundTrip (payloads : List (List Nat)) : Option (List (List Nat)) :=
  match writeAll payloads with
  | .error _ => Option.none
  | .ok lw =>
    runPipeline (lw.fw.data.length + 1) (Iter.init lw.fw.data)
      WriteBatchBuilder.new []

/-- Spec-level helper: the decomposition of a payload into the fragment
payloads the log writer emits — maximal `DEFAULT_BLOCK_SIZE -
LOG_RECORD_HEADER_SIZE`-byte chunks with the remainder last. -/
def chunksOf (l : List Nat) : List (List Nat) :=
  if l.length ≤ DEFAULT_BLOCK_SIZE - LOG_RECORD_HEADER_SIZE then [l]
  else l.take (DEFAULT_BLOCK_SIZE - LOG_RECORD_HEADER_SIZE) ::
       chunksOf (l.drop (DEFAULT_BLOCK_SIZE - LOG_RECORD_HEADER_SIZE))
termination_by l.length
decreasing_by
  simp only [List.length_drop]
  simp [DEFAULT_BLOCK_SIZE, LOG_RECORD_HEADER_SIZE] at *
  omega

/-- Spec-level helper: the record-type word for `k` fragments, starting at
record index 0 (`isFirst = true`). -/
def fragTypes (isFirst : Bool) : Nat → List RecordType
  | 0 => []
  | 1 => [if isFirst then RecordType.full else RecordType.last]
  | Nat.succ (Nat.succ k) =>
    (if isFirst then RecordType.first else RecordType.middle) ::
      fragTypes false (Nat.succ k)

/-- Spec-level helper: the trailer padding `add_block_padding` emits for a
given incoming `block_pos` (empty unless fewer than `MIN_RECORD_SIZE` bytes
remain in the block). -/
def padOf (block_pos : Nat) : List Nat :=
  if DEFAULT_BLOCK_SIZE - block_pos < MIN_RECORD_SIZE then
    List.replicate (DEFAULT_BLOCK_SIZE - block_pos) 0
  else []

/-- Spec-level helper: the byte encoding of one write-batch entry
(`key_len | key | value_len | value?`). -/
def encEntry (entry : List Nat × Option (List Nat)) : List Nat :=
  match entry.2 with
  | some value => u32_to_be_bytes entry.1.length ++ entry.1 ++
      u32_to_be_bytes value.length ++ value
  | Option.none => u32_to_be_bytes entry.1.length ++ entry.1 ++ u32_to_be_bytes 0

/-- Apply a sequence of `(key, Option value)` operations to a write batch:
`some value` via `insert_or_update`, `none` via `delete`. -/
def applyOps (wb : WriteBatch) (ops : List (List Nat × Option (List Nat))) :
    WriteBatch :=
  ops.foldl
    (fun wb op =>
      match op.2 with
      | some value => wb.insert_or_update op.1 value
      | Option.none => wb.delete op.1)
    wb

/-- The regular language `Full | First Middle* Last` of record-type words
(spec 8, "Fragmentation correctness"). -/
def fragLang (ts : List RecordType) : Prop :=
  ts = [RecordType.full] ∨
  ∃ n, ts = RecordType.first ::
    (List.replicate n RecordType.middle ++ [RecordType.last])

/-- The payloads of the cross-block-boundary scenario: a 32,760-byte first
payload (whose record fills all but one byte of the first block) followed by
a one-byte second payload. -/
def crossP1 : List Nat := List.replicate 32760 37

def crossP2 : List Nat := [42]

/-- The file bytes those two appends produce: a 32,767-byte `Full` record, a
single block-trailer padding byte at offset 32,767, and a 9-byte `Full`
record starting exactly at the 32,768-byte block boundary. -/
def crossF : List Nat :=
  (LogRecord.new RecordType.full crossP1).serialize ++
    ([0] ++ (LogRecord.new RecordType.full crossP2).serialize)

deriving instance DecidableEq for Except

theorem length_u32_to_be_bytes (n : Nat) : (u32_to_be_bytes n).length = 4 := rfl

theorem length_u16_to_be_bytes (n : Nat) : (u16_to_be_bytes n).length = 2 := rfl

theorem u32_round_trip (n : Nat) (h : n < 2 ^ 32) :
    u32_from_be_bytes (u32_to_be_bytes n) = n := by
  simp [u32_to_be_bytes, u32_from_be_bytes, List.getD]
  omega

theorem u16_round_trip (n : Nat) (h : n < 2 ^ 16) :
    u16_from_be_bytes (u16_to_be_bytes n) = n := by
  simp [u16_to_be_bytes, u16_from_be_bytes, List.getD]
  omega

theorem crc32cStep_lt (crc : Nat) (h : crc < 2 ^ 32) : crc32cStep crc < 2 ^ 32 := by
  unfold crc32cStep
  split
  · exact Nat.xor_lt_two_pow (by omega) (by norm_num)
  · omega

theorem crc32cByte_lt (crc b : Nat) (hc : crc < 2 ^ 32) (hb : b < 2 ^ 32) :
    crc32cByte crc b < 2 ^ 32 := by
  unfold crc32cByte
  have h0 : crc ^^^ b < 2 ^ 32 := Nat.xor_lt_two_pow hc hb
  exact crc32cStep_lt _ (crc32cStep_lt _ (crc32cStep_lt _ (crc32cStep_lt _
    (crc32cStep_lt _ (crc32cStep_lt _ (crc32cStep_lt _ (crc32cStep_lt _ h0)))))))

theorem foldl_crc32cByte_lt (data : List Nat) (init : Nat)
    (hi : init < 2 ^ 32) (h : ∀ b ∈ data, b < 2 ^ 32) :
    data.foldl crc32cByte init < 2 ^ 32 := by
  induction data generalizing init with
  | nil => simpa using hi
  | cons a l ih =>
    simp only [List.foldl_cons]
    exact ih (crc32cByte init a) (crc32cByte_lt _ _ hi (h a (by simp)))
      (fun b hb => h b (by simp [hb]))

theorem crc32c_lt (data : List Nat) (h : ∀ b ∈ data, b < 2 ^ 32) :
    crc32c data < 2 ^ 32 := by
  unfold crc32c
  exact Nat.xor_lt_two_pow (foldl_crc32cByte_lt data 0xFFFFFFFF (by norm_num) h)
    (by norm_num)

theorem from_u8_value (rt : RecordType) : RecordType.from_u8 rt.value = some rt := by
  cases rt <;> rfl

theorem length_serialize (r : LogRecord) :
    r.serialize.length = 7 + r.payload.length := by
  simp [LogRecord.serialize, u32_to_be_bytes, u16_to_be_bytes]
  omega

/-- Decoding the serialized image of a well-formed record, followed by any
trailing bytes, recovers the record. -/
theorem from_serialized_bytes_append (r : LogRecord) (t : List Nat)
    (hsz : r.size = r.payload.length) (hcrc : r.crc < 2 ^ 32)
    (hs16 : r.size < 2 ^ 16)
    (hlen : r.serialize.length + t.length ≤ 65535)
    (hmin : 1 ≤ r.payload.length + t.length) :
    LogRecord.from_serialized_bytes (r.serialize ++ t) = some (.ok r) := by
  have hls : r.serialize.length = 7 + r.payload.length := length_serialize r
  have hser : r.serialize ++ t =
      r.crc / 2 ^ 24 % 256 :: (r.crc / 2 ^ 16 % 256 :: (r.crc / 2 ^ 8 % 256 ::
      (r.crc % 256 :: (r.size / 2 ^ 8 % 256 :: (r.size % 256 ::
      (r.rtype.value :: (r.payload ++ t))))))) := by
    simp [LogRecord.serialize, u32_to_be_bytes, u16_to_be_bytes]
  rw [hser]
  unfold LogRecord.from_serialized_bytes
  have hlen' : (r.crc / 2 ^ 24 % 256 :: (r.crc / 2 ^ 16 % 256 ::
      (r.crc / 2 ^ 8 % 256 :: (r.crc % 256 :: (r.size / 2 ^ 8 % 256 ::
      (r.size % 256 :: (r.rtype.value :: (r.payload ++ t)))))))).length =
      7 + (r.payload.length + t.length) := by
    simp; omega
  rw [hlen']
  rw [if_neg (by omega : ¬ 65535 < 7 + (r.payload.length + t.length))]
  rw [if_neg (by simp [MIN_RECORD_SIZE, LOG_RECORD_HEADER_SIZE]; omega :
    ¬ 7 + (r.payload.length + t.length) < MIN_RECORD_SIZE)]
  simp only [List.drop, List.take]
  have hsizefield : u16_from_be_bytes [r.size / 2 ^ 8 % 256, r.size % 256] = r.size := by
    simp [u16_from_be_bytes, List.getD]; omega
  have htype : u8_from_be_bytes [RecordType.value r.rtype] = r.rtype.value := by
    simp [u8_from_be_bytes]
  rw [hsizefield, htype, from_u8_value]
  have hcrcfield : u32_from_be_bytes [r.crc / 2 ^ 24 % 256, r.crc / 2 ^ 16 % 256,
      r.crc / 2 ^ 8 % 256, r.crc % 256] = r.crc := by
    simp [u32_from_be_bytes, List.getD]; omega
  have hpay : (r.payload ++ t).take r.size = r.payload := by
    rw [hsz]; exact List.take_left r.payload t
  simp only [LOG_RECORD_HEADER_SIZE]
  rw [if_pos (by omega : 7 + r.size ≤ 7 + (r.payload.length + t.length))]
  rw [hcrcfield, hpay]

theorem FileWriter.append_ok (fw fw' : FileWriter) (l : List Nat)
    (h : fw.append l = .ok fw') :
    fw'.data = fw.data ++ l ∧ (fw.failPlan = [] → fw'.failPlan = []) := by
  unfold FileWriter.append at h
  by_cases hl : l = []
  · simp only [hl, if_pos rfl] at h
    cases h
    simp [hl]
  · rw [if_neg hl] at h
    match hp : fw.failPlan with
    | true :: rest => rw [hp] at h; cases h
    | false :: rest => rw [hp] at h; cases h; simp [hp]
    | [] => rw [hp] at h; cases h; simp

theorem FileWriter.append_plan_nil (fw : FileWriter) (l : List Nat)
    (h : fw.failPlan = []) :
    fw.append l = .ok { data := fw.data ++ l, failPlan := [] } := by
  obtain ⟨d, p⟩ := fw
  simp only at h
  subst h
  unfold FileWriter.append
  by_cases hl : l = [] <;> simp [hl]

theorem add_block_padding_ok (lw lw' : LogWriter)
    (h : lw.add_block_padding = .ok lw') :
    lw'.block_pos = 0 ∧ lw'.fw.data = lw.fw.data ++ padOf lw.block_pos ∧
      lw'.stats = lw.stats ∧ (lw.fw.failPlan = [] → lw'.fw.failPlan = []) := by
  unfold LogWriter.add_block_padding at h
  by_cases hc : DEFAULT_BLOCK_SIZE - lw.block_pos < MIN_RECORD_SIZE
  · rw [if_pos hc] at h
    have htake : BLOCK_PADDING.take (DEFAULT_BLOCK_SIZE - lw.block_pos) =
        List.replicate (DEFAULT_BLOCK_SIZE - lw.block_pos) 0 := by
      rw [BLOCK_PADDING, List.take_replicate]
      congr 1
      simp [MIN_RECORD_SIZE, LOG_RECORD_HEADER_SIZE] at hc ⊢
      omega
    cases hfw : lw.fw.append (BLOCK_PADDING.take (DEFAULT_BLOCK_SIZE - lw.block_pos)) with
    | error e => rw [hfw] at h; cases h
    | ok fw' =>
      rw [hfw] at h
      cases h
      obtain ⟨hdata, hplan⟩ := FileWriter.append_ok _ _ _ hfw
      refine ⟨rfl, ?_, rfl, hplan⟩
      rw [hdata, htake, padOf, if_pos hc]
  · rw [if_neg hc] at h
    cases h
    refine ⟨rfl, ?_, rfl, fun hp => hp⟩
    rw [padOf, if_neg hc, List.append_nil]

theorem add_block_padding_plan_nil (lw : LogWriter) (h : lw.fw.failPlan = []) :
    lw.add_block_padding =
      .ok { fw := { data := lw.fw.data ++ padOf lw.block_pos, failPlan := [] },
            block_pos := 0, stats := lw.stats } := by
  unfold LogWriter.add_block_padding
  by_cases hc : DEFAULT_BLOCK_SIZE - lw.block_pos < MIN_RECORD_SIZE
  · rw [if_pos hc]
    have htake : BLOCK_PADDING.take (DEFAULT_BLOCK_SIZE - lw.block_pos) =
        List.replicate (DEFAULT_BLOCK_SIZE - lw.block_pos) 0 := by
      rw [BLOCK_PADDING, List.take_replicate]
      congr 1
      simp [MIN_RECORD_SIZE, LOG_RECORD_HEADER_SIZE] at hc ⊢
      omega
    rw [FileWriter.append_plan_nil _ _ h, htake]
    rw [padOf, if_pos hc]
  · rw [if_neg hc]
    rw [padOf, if_neg hc, List.append_nil]
    obtain ⟨⟨d, p⟩, bp, st⟩ := lw
    simp only at h
    subst h
    rfl

theorem append_record_ok (lw lw2 : LogWriter) (r : LogRecord)
    (h : lw.append_record r = .ok lw2) :
    lw2.fw.data = lw.fw.data ++ r.serialize ∧ lw2.block_pos = lw.block_pos ∧
      lw2.stats = lw.stats ∧ (lw.fw.failPlan = [] → lw2.fw.failPlan = []) := by
  unfold LogWriter.append_record at h
  cases h1 : lw.fw.append (u32_to_be_bytes r.crc) with
  | error e => rw [h1] at h; cases h
  | ok fw1 =>
    rw [h1] at h
    dsimp only at h
    cases h2 : fw1.append (u16_to_be_bytes r.size) with
    | error e => rw [h2] at h; cases h
    | ok fw2 =>
      rw [h2] at h
      dsimp only at h
      cases h3 : fw2.append [r.rtype.value] with
      | error e => rw [h3] at h; cases h
      | ok fw3 =>
        rw [h3] at h
        dsimp only at h
        cases h4 : fw3.append r.payload with
        | error e => rw [h4] at h; cases h
        | ok fw4 =>
          rw [h4] at h
          dsimp only at h
          cases h
          obtain ⟨d1, p1⟩ := FileWriter.append_ok _ _ _ h1
          obtain ⟨d2, p2⟩ := FileWriter.append_ok _ _ _ h2
          obtain ⟨d3, p3⟩ := FileWriter.append_ok _ _ _ h3
          obtain ⟨d4, p4⟩ := FileWriter.append_ok _ _ _ h4
          refine ⟨?_, rfl, rfl, fun hp => p4 (p3 (p2 (p1 hp)))⟩
          rw [d4, d3, d2, d1, LogRecord.serialize]
          simp [List.append_assoc]

theorem append_record_plan_nil (lw : LogWriter) (r : LogRecord)
    (h : lw.fw.failPlan = []) :
    lw.append_record r =
      .ok { fw := { data := lw.fw.data ++ r.serialize, failPlan := [] },
            block_pos := lw.block_pos, stats := lw.stats } := by
  unfold LogWriter.append_record
  rw [FileWriter.append_plan_nil _ _ h]
  dsimp only
  rw [FileWriter.append_plan_nil _ _ rfl]
  dsimp only
  rw [FileWriter.append_plan_nil _ _ rfl]
  dsimp only
  rw [FileWriter.append_plan_nil _ _ rfl]
  dsimp only
  rw [LogRecord.serialize]
  simp [List.append_assoc]

theorem chunksOf_ne_nil (l : List Nat) : chunksOf l ≠ [] := by
  rw [chunksOf]
  split <;> simp

theorem flatten_chunksOf (l : List Nat) : (chunksOf l).flatten = l := by
  induction l using chunksOf.induct with
  | case1 l h =>
    rw [chunksOf, if_pos h]
    simp
  | case2 l h ih =>
    rw [chunksOf, if_neg h]
    simp only [List.flatten_cons, ih]
    exact List.take_append_drop _ l

theorem chunksOf_length_le (l : List Nat) :
    ∀ c ∈ chunksOf l, c.length ≤ DEFAULT_BLOCK_SIZE - LOG_RECORD_HEADER_SIZE := by
  induction l using chunksOf.induct with
  | case1 l h =>
    rw [chunksOf, if_pos h]
    intro c hc
    simp at hc
    subst hc
    exact h
  | case2 l h ih =>
    rw [chunksOf, if_neg h]
    intro c hc
    rcases List.mem_cons.mp hc with hc | hc
    · subst hc
      simp
    · exact ih c hc

theorem chunksOf_length_pos (l : List Nat) :
    l ≠ [] → ∀ c ∈ chunksOf l, 1 ≤ c.length := by
  induction l using chunksOf.induct with
  | case1 l h =>
    intro hl c hc
    rw [chunksOf, if_pos h] at hc
    simp at hc
    subst hc
    have := List.length_pos.mpr hl
    omega
  | case2 l h ih =>
    intro hl c hc
    rw [chunksOf, if_neg h] at hc
    rcases List.mem_cons.mp hc with hc | hc
    · subst hc
      simp only [List.length_take]
      simp [DEFAULT_BLOCK_SIZE, LOG_RECORD_HEADER_SIZE] at h ⊢
      omega
    · refine ih ?_ c hc
      intro hdrop
      have := congrArg List.length hdrop
      simp [DEFAULT_BLOCK_SIZE, LOG_RECORD_HEADER_SIZE] at h this
      omega

theorem length_fragTypes (b : Bool) (k : Nat) : (fragTypes b k).length = k := by
  induction k using Nat.strong_induction_on generalizing b with
  | _ k ih =>
    match k with
    | 0 => rfl
    | 1 => cases b <;> rfl
    | Nat.succ (Nat.succ k') =>
      rw [fragTypes]
      simp only [List.length_cons]
      rw [ih (k' + 1) (by omega)]

theorem fragTypes_false (k : Nat) :
    fragTypes false (k + 1) =
      List.replicate k RecordType.middle ++ [RecordType.last] := by
  induction k with
  | zero => rfl
  | succ k ih =>
    rw [fragTypes, ih]
    simp [List.replicate_succ]

theorem fragTypes_lang (k : Nat) (hk : 1 ≤ k) : fragLang (fragTypes true k) := by
  match k, hk with
  | 1, _ => left; rfl
  | Nat.succ (Nat.succ k'), _ =>
    right
    refine ⟨k', ?_⟩
    rw [fragTypes, fragTypes_false]
    simp

theorem appendLoop_eq_step (lw : LogWriter) (c : BufferConsumer) (rc : Nat)
    (h1 : ¬ c.remaining = 0) (hplan : lw.fw.failPlan = []) :
    LogWriter.appendLoop lw c rc =
      (let consume_count := min c.remaining
         (DEFAULT_BLOCK_SIZE - LOG_RECORD_HEADER_SIZE)
       let step := c.consume consume_count
       let rtype := if step.2.done then
           (if rc = 0 then RecordType.full else RecordType.last)
         else (if rc = 0 then RecordType.first else RecordType.middle)
       let record := LogRecord.new rtype step.1
       let lw3 : LogWriter :=
         { fw := { data := (lw.fw.data ++ padOf lw.block_pos) ++ record.serialize,
                   failPlan := [] },
           block_pos := 0 + record.len,
           stats := lw.stats.consume_record }
       let rest := LogWriter.appendLoop lw3 step.2 (rc + 1)
       (rest.1, rest.2.1, record :: rest.2.2)) := by
  rw [LogWriter.appendLoop]
  rw [dif_neg h1]
  split
  · next e heq =>
    rw [add_block_padding_plan_nil lw hplan] at heq
    cases heq
  · next lw1 heq =>
    rw [add_block_padding_plan_nil lw hplan] at heq
    cases heq
    dsimp only [LogWriter.remaining_block_capacity]
    rw [append_record_plan_nil
      { fw := { data := lw.fw.data ++ padOf lw.block_pos, failPlan := [] },
        block_pos := 0, stats := lw.stats } _ rfl]
    dsimp only
    simp only [Nat.sub_zero]

theorem appendLoop_eq_zero (lw : LogWriter) (c : BufferConsumer) (rc : Nat)
    (h : c.remaining = 0) :
    LogWriter.appendLoop lw c rc = (.ok (), lw, []) := by
  rw [LogWriter.appendLoop, dif_pos h]


theorem fragTypes_one (b : Bool) :
    fragTypes b 1 = [if b then RecordType.full else RecordType.last] := rfl

theorem fragTypes_two (b : Bool) (k : Nat) :
    fragTypes b (k + 2) =
      (if b then RecordType.first else RecordType.middle) ::
        fragTypes false (k + 1) := rfl

theorem ite_nat_eq_beq {α : Sort _} (rc : Nat) (x y : α) :
    (if rc = 0 then x else y) = (if (rc == 0) = true then x else y) := by
  by_cases h : rc = 0 <;> simp [h]

theorem getLast_congr {α : Type _} (l1 l2 : List α) (h1 : l1 ≠ [])
    (h2 : l2 ≠ []) (h : l1 = l2) : l1.getLast h1 = l2.getLast h2 := by
  subst h
  rfl

/-- Characterization of one complete `LogWriter::append` loop with no
injected I/O failures: it succeeds, emits the records obtained by zipping the
fragment-type word with the chunk decomposition of the remaining input, the
file grows by the initial trailer padding followed by the serialized records,
and `block_pos` ends at header size plus the final fragment's length. -/
theorem appendLoop_spec (n : Nat) :
    ∀ (c : BufferConsumer) (lw : LogWriter) (rc : Nat),
    c.remaining = n →
    c.pos + c.remaining = c.buf.length →
    1 ≤ c.remaining →
    lw.fw.failPlan = [] →
    (LogWriter.appendLoop lw c rc).1 = .ok () ∧
    (LogWriter.appendLoop lw c rc).2.1.fw.failPlan = [] ∧
    (LogWriter.appendLoop lw c rc).2.2 =
      List.zipWith LogRecord.new
        (fragTypes (rc == 0) (chunksOf (c.buf.drop c.pos)).length)
        (chunksOf (c.buf.drop c.pos)) ∧
    (LogWriter.appendLoop lw c rc).2.1.fw.data =
      lw.fw.data ++ padOf lw.block_pos ++
        ((LogWriter.appendLoop lw c rc).2.2.map LogRecord.serialize).flatten ∧
    (LogWriter.appendLoop lw c rc).2.1.block_pos =
      LOG_RECORD_HEADER_SIZE +
        ((chunksOf (c.buf.drop c.pos)).getLast (chunksOf_ne_nil _)).length := by
  induction n using Nat.strong_induction_on with
  | _ n ih =>
    intro c lw rc hn hwf hpos hplan
    have hne : ¬ c.remaining = 0 := by omega
    have hldrop : (c.buf.drop c.pos).length = c.remaining := by
      rw [List.length_drop]; omega
    rw [appendLoop_eq_step lw c rc hne hplan]
    have hcappos : 1 ≤ DEFAULT_BLOCK_SIZE - LOG_RECORD_HEADER_SIZE := by decide
    by_cases hcase : c.remaining ≤ DEFAULT_BLOCK_SIZE - LOG_RECORD_HEADER_SIZE
    · -- the whole remaining input fits in one record
      have hA1 : min c.remaining (DEFAULT_BLOCK_SIZE - LOG_RECORD_HEADER_SIZE) =
          c.remaining := Nat.min_eq_left hcase
      have htake : (c.buf.drop c.pos).take c.remaining = c.buf.drop c.pos :=
        List.take_of_length_le (by omega)
      have hchunks : chunksOf (c.buf.drop c.pos) = [c.buf.drop c.pos] := by
        rw [chunksOf, if_pos (by omega)]
      simp only [BufferConsumer.consume, BufferConsumer.done, hA1, Nat.min_self,
        Nat.sub_self, htake, eq_self_iff_true, decide_True, if_true, hchunks]
      rw [appendLoop_eq_zero _ _ _ rfl]
      refine ⟨rfl, rfl, ?_, ?_, ?_⟩
      · simp only [List.length_singleton, fragTypes_one, List.zipWith_cons_cons,
          List.zipWith_nil_right]
        rw [← ite_nat_eq_beq]
      · simp [List.append_assoc]
      · simp [LogRecord.len, LogRecord.new]
    · -- a full-capacity fragment is emitted and the loop continues
      push_neg at hcase
      have hB1 : min c.remaining (DEFAULT_BLOCK_SIZE - LOG_RECORD_HEADER_SIZE) =
          DEFAULT_BLOCK_SIZE - LOG_RECORD_HEADER_SIZE := Nat.min_eq_right (by omega)
      have hB2 : min (DEFAULT_BLOCK_SIZE - LOG_RECORD_HEADER_SIZE) c.remaining =
          DEFAULT_BLOCK_SIZE - LOG_RECORD_HEADER_SIZE := Nat.min_eq_left (by omega)
      have htakelen : ((c.buf.drop c.pos).take
          (DEFAULT_BLOCK_SIZE - LOG_RECORD_HEADER_SIZE)).length =
          DEFAULT_BLOCK_SIZE - LOG_RECORD_HEADER_SIZE := by
        rw [List.length_take]; omega
      have hdec : (decide (c.remaining -
          (DEFAULT_BLOCK_SIZE - LOG_RECORD_HEADER_SIZE) = 0)) = false := by
        simp only [decide_eq_false_iff_not]
        omega
      simp only [BufferConsumer.consume, BufferConsumer.done, hB1, hB2, hdec,
        Bool.false_eq_true, if_false]
      have hih := ih (c.remaining - (DEFAULT_BLOCK_SIZE - LOG_RECORD_HEADER_SIZE))
        (by omega)
        { c with pos := c.pos + (DEFAULT_BLOCK_SIZE - LOG_RECORD_HEADER_SIZE),
                 remaining := c.remaining -
                              (DEFAULT_BLOCK_SIZE - LOG_RECORD_HEADER_SIZE) }
        { fw := { data := (lw.fw.data ++ padOf lw.block_pos) ++
                          (LogRecord.new
                            (if rc = 0 then RecordType.first else RecordType.middle)
                            ((c.buf.drop c.pos).take
                              (DEFAULT_BLOCK_SIZE - LOG_RECORD_HEADER_SIZE))).serialize,
                  failPlan := [] },
          block_pos := 0 + (LogRecord.new
                        (if rc = 0 then RecordType.first else RecordType.middle)
                        ((c.buf.drop c.pos).take
                          (DEFAULT_BLOCK_SIZE - LOG_RECORD_HEADER_SIZE))).len,
          stats := lw.stats.consume_record }
        (rc + 1) rfl (by dsimp only; omega) (by dsimp only; omega) rfl
      have hdropdrop : c.buf.drop
          (c.pos + (DEFAULT_BLOCK_SIZE - LOG_RECORD_HEADER_SIZE)) =
          (c.buf.drop c.pos).drop (DEFAULT_BLOCK_SIZE - LOG_RECORD_HEADER_SIZE) := by
        rw [List.drop_drop]
        try congr 1
        try omega
      rw [hdropdrop] at hih
      have hchne := chunksOf_ne_nil
        ((c.buf.drop c.pos).drop (DEFAULT_BLOCK_SIZE - LOG_RECORD_HEADER_SIZE))
      have hkpos : 1 ≤ (chunksOf ((c.buf.drop c.pos).drop
          (DEFAULT_BLOCK_SIZE - LOG_RECORD_HEADER_SIZE))).length :=
        Nat.one_le_iff_ne_zero.mpr (fun h0 => hchne (List.length_eq_zero.mp h0))
      obtain ⟨k'', hk''⟩ : ∃ k'', (chunksOf ((c.buf.drop c.pos).drop
          (DEFAULT_BLOCK_SIZE - LOG_RECORD_HEADER_SIZE))).length = k'' + 1 :=
        ⟨_, (Nat.succ_pred_eq_of_pos hkpos).symm⟩
      have hchunks : chunksOf (c.buf.drop c.pos) =
          (c.buf.drop c.pos).take (DEFAULT_BLOCK_SIZE - LOG_RECORD_HEADER_SIZE) ::
          chunksOf ((c.buf.drop c.pos).drop
            (DEFAULT_BLOCK_SIZE - LOG_RECORD_HEADER_SIZE)) := by
        rw [chunksOf, if_neg (by omega)]
      obtain ⟨hok, hplan', hrecs, hdata, hbp⟩ := hih
      have hsucc : ((rc + 1) == 0) = false := by simp
      rw [hsucc] at hrecs
      refine ⟨hok, hplan', ?_, ?_, ?_⟩
      · rw [hrecs, hchunks]
        simp only [List.length_cons, hk'']
        rw [fragTypes_two, List.zipWith_cons_cons]
        rw [← ite_nat_eq_beq]
      · rw [hdata]
        have hpad0 : padOf (0 + (LogRecord.new
            (if rc = 0 then RecordType.first else RecordType.middle)
            ((c.buf.drop c.pos).take
              (DEFAULT_BLOCK_SIZE - LOG_RECORD_HEADER_SIZE))).len) = [] := by
          simp only [LogRecord.len, LogRecord.new, htakelen]
          decide
        rw [hpad0]
        rw [List.map_cons, List.flatten_cons]
        rw [List.append_nil]
        rw [List.append_assoc, List.append_assoc]
      · rw [hbp]
        have hlast : (chunksOf (c.buf.drop c.pos)).getLast (chunksOf_ne_nil _) =
            (chunksOf ((c.buf.drop c.pos).drop
              (DEFAULT_BLOCK_SIZE - LOG_RECORD_HEADER_SIZE))).getLast hchne := by
          rw [getLast_congr _ _ (chunksOf_ne_nil _) (List.cons_ne_nil _ _) hchunks]
          exact List.getLast_cons hchne
        rw [hlast]

/-- Characterization of one complete `LogWriter::append` call with no
injected I/O failures. -/
theorem append_spec (lw : LogWriter) (payload : List Nat)
    (hp : payload ≠ []) (hplan : lw.fw.failPlan = []) :
    (lw.append payload).1 = .ok () ∧
    (lw.append payload).2.1.fw.failPlan = [] ∧
    (lw.append payload).2.2 =
      List.zipWith LogRecord.new (fragTypes true (chunksOf payload).length)
        (chunksOf payload) ∧
    (lw.append payload).2.1.fw.data =
      lw.fw.data ++ padOf lw.block_pos ++
        (((lw.append payload).2.2).map LogRecord.serialize).flatten ∧
    (lw.append payload).2.1.block_pos =
      LOG_RECORD_HEADER_SIZE +
        ((chunksOf payload).getLast (chunksOf_ne_nil _)).length := by
  have hlen : 1 ≤ (BufferConsumer.new payload).remaining := by
    simp [BufferConsumer.new]
    exact Nat.one_le_iff_ne_zero.mpr
      (fun h0 => hp (List.length_eq_zero.mp h0))
  have hspec := appendLoop_spec (BufferConsumer.new payload).remaining
    (BufferConsumer.new payload) lw 0 rfl (by simp [BufferConsumer.new]) hlen hplan
  have hdrop : (BufferConsumer.new payload).buf.drop
      (BufferConsumer.new payload).pos = payload := by
    simp [BufferConsumer.new]
  rw [hdrop] at hspec
  obtain ⟨hok, hplan', hrecs, hdata, hbp⟩ := hspec
  unfold LogWriter.append
  rw [if_neg hp]
  dsimp only
  rw [hok]
  dsimp only
  rw [FileWriter.flush]
  dsimp only
  exact ⟨rfl, hplan', hrecs, hdata, hbp⟩

theorem map_rtype_zipWith (ts : List RecordType) (ls : List (List Nat))
    (h : ts.length = ls.length) :
    (List.zipWith LogRecord.new ts ls).map LogRecord.rtype = ts := by
  induction ts generalizing ls with
  | nil => simp
  | cons t ts ih =>
    cases ls with
    | nil => simp at h
    | cons l ls =>
      simp only [List.zipWith_cons_cons, List.map_cons]
      rw [ih ls (by simpa using h)]
      rfl

theorem map_payload_zipWith (ts : List RecordType) (ls : List (List Nat))
    (h : ts.length = ls.length) :
    (List.zipWith LogRecord.new ts ls).map LogRecord.payload = ls := by
  induction ts generalizing ls with
  | nil => cases ls with
    | nil => simp
    | cons l ls => simp at h
  | cons t ts ih =>
    cases ls with
    | nil => simp at h
    | cons l ls =>
      simp only [List.zipWith_cons_cons, List.map_cons]
      rw [ih ls (by simpa using h)]
      rfl

/-- C8: `LogWriter::append` with an empty payload returns
`Value("Payload is empty")` and leaves the writer state (file bytes and
`block_pos`) unchanged, emitting no records. -/
theorem c8_empty_payload_rejected (lw : LogWriter) :
    lw.append [] = (.error (.valueError "Payload is empty"), lw, []) := by
  unfold LogWriter.append
  rw [if_pos rfl]

/-- C4: every complete (successful) `LogWriter::append` call with a
non-empty payload and no injected I/O failures emits a record-type word in
the regular language `Full | First Middle* Last`. -/
theorem c4_fragmentation_language (lw : LogWriter) (payload : List Nat)
    (hp : payload ≠ []) (hbp : lw.block_pos ≤ DEFAULT_BLOCK_SIZE)
    (hplan : lw.fw.failPlan = []) :
    fragLang (((lw.append payload).2.2).map LogRecord.rtype) := by
  obtain ⟨hok, hplan', hrecs, hdata, hbpos⟩ := append_spec lw payload hp hplan
  rw [hrecs, map_rtype_zipWith _ _ (length_fragTypes _ _)]
  refine fragTypes_lang _ (Nat.one_le_iff_ne_zero.mpr (fun h0 => ?_))
  exact chunksOf_ne_nil payload (List.length_eq_zero.mp h0)

theorem c4_witness :
    fragLang ((((LogWriter.fresh []).append [1, 2, 3]).2.2).map
      LogRecord.rtype) :=
  c4_fragmentation_language (LogWriter.fresh []) [1, 2, 3] (by decide)
    (by decide) rfl

theorem replicate_ne_nil (n a : Nat) (h : n ≠ 0) : List.replicate n a ≠ [] := by
  intro he
  apply h
  have := congrArg List.length he
  simpa using this

theorem chunksOf_small (l : List Nat)
    (h : l.length ≤ DEFAULT_BLOCK_SIZE - LOG_RECORD_HEADER_SIZE) :
    chunksOf l = [l] := by
  rw [chunksOf, if_pos h]

theorem chunksOf_replicate_65536 :
    chunksOf (List.replicate 65536 (0 : Nat)) =
      [List.replicate 32761 0, List.replicate 32761 0, List.replicate 14 0] := by
  have hcap : DEFAULT_BLOCK_SIZE - LOG_RECORD_HEADER_SIZE = 32761 := by decide
  have hlen1 : ¬ ((List.replicate 65536 (0 : Nat)).length ≤
      DEFAULT_BLOCK_SIZE - LOG_RECORD_HEADER_SIZE) := by
    rw [hcap]
    simp only [List.length_replicate]
    omega
  rw [chunksOf, if_neg hlen1, hcap]
  rw [List.take_replicate, List.drop_replicate]
  have h1 : min 32761 65536 = 32761 := by omega
  have h2 : 65536 - 32761 = 32775 := by norm_num
  rw [h1, h2]
  have hlen2 : ¬ ((List.replicate 32775 (0 : Nat)).length ≤
      DEFAULT_BLOCK_SIZE - LOG_RECORD_HEADER_SIZE) := by
    rw [hcap]
    simp only [List.length_replicate]
    omega
  rw [chunksOf, if_neg hlen2, hcap]
  rw [List.take_replicate, List.drop_replicate]
  have h3 : min 32761 32775 = 32761 := by omega
  have h4 : 32775 - 32761 = 14 := by norm_num
  rw [h3, h4]
  rw [chunksOf_small _ (by rw [hcap]; simp only [List.length_replicate]; omega)]

/-- C7: appending one 65,536-byte payload to a fresh log writer emits
exactly a `First` record of size 32,761, a `Middle` of size 32,761 and a
`Last` of size 14, and leaves `block_pos` at 21. -/
theorem c7_two_block_append :
    (((LogWriter.fresh []).append (List.replicate 65536 0)).1 = .ok ()) ∧
    (((LogWriter.fresh []).append (List.replicate 65536 0)).2.2.map
        (fun r => (r.rtype, r.size)) =
      [(RecordType.first, 32761), (RecordType.middle, 32761),
       (RecordType.last, 14)]) ∧
    ((LogWriter.fresh []).append (List.replicate 65536 0)).2.1.block_pos = 21 := by
  obtain ⟨hok, hplan', hrecs, hdata, hbp⟩ :=
    append_spec (LogWriter.fresh []) (List.replicate 65536 0)
      (replicate_ne_nil _ _ (by omega)) rfl
  rw [chunksOf_replicate_65536] at hrecs
  have hlast : (chunksOf (List.replicate 65536 (0 : Nat))).getLast
      (chunksOf_ne_nil _) = List.replicate 14 0 := by
    rw [getLast_congr _ _ (chunksOf_ne_nil _)
      (List.cons_ne_nil _ _) chunksOf_replicate_65536]
    rfl
  rw [hlast] at hbp
  refine ⟨hok, ?_, ?_⟩
  · rw [hrecs]
    simp only [List.length_cons, List.length_nil]
    rw [show fragTypes true 3 =
      [RecordType.first, RecordType.middle, RecordType.last] from rfl]
    simp only [List.zipWith_cons_cons, List.zipWith_nil_right, List.map_cons,
      List.map_nil, LogRecord.new, List.length_replicate]
  · rw [hbp]
    simp only [List.length_replicate, LOG_RECORD_HEADER_SIZE]

/-- C5 counterexample: appending a payload of exactly
`DEFAULT_BLOCK_SIZE - LOG_RECORD_HEADER_SIZE = 32761` bytes to a fresh
writer is a complete, successful append after which `block_pos` equals
32,768, which is outside the claimed half-open range `[0, 32768)`. -/
theorem c5_counterexample :
    (((LogWriter.fresh []).append (List.replicate 32761 0)).1 = .ok ()) ∧
    ((LogWriter.fresh []).append (List.replicate 32761 0)).2.1.block_pos =
      32768 ∧
    ¬ ((LogWriter.fresh []).append (List.replicate 32761 0)).2.1.block_pos <
      32768 := by
  obtain ⟨hok, hplan', hrecs, hdata, hbp⟩ :=
    append_spec (LogWriter.fresh []) (List.replicate 32761 0)
      (replicate_ne_nil _ _ (by omega)) rfl
  have hlast : (chunksOf (List.replicate 32761 (0 : Nat))).getLast
      (chunksOf_ne_nil _) = List.replicate 32761 0 := by
    rw [getLast_congr _ _ (chunksOf_ne_nil _) (List.cons_ne_nil _ _)
      (chunksOf_small _ (by simp only [List.length_replicate]; decide))]
    rfl
  rw [hlast] at hbp
  have hbp' : ((LogWriter.fresh []).append
      (List.replicate 32761 0)).2.1.block_pos = 32768 := by
    rw [hbp, List.length_replicate]
    decide
  exact ⟨hok, hbp', by rw [hbp']; omega⟩

theorem length_encEntry (op : List Nat × Option (List Nat)) :
    8 ≤ (encEntry op).length := by
  match op with
  | (k, some v) =>
    simp [encEntry, u32_to_be_bytes]
    try omega
  | (k, Option.none) =>
    simp [encEntry, u32_to_be_bytes]
    try omega

theorem length_le_flatten_encEntry (ops : List (List Nat × Option (List Nat))) :
    ops.length ≤ ((ops.map encEntry).flatten).length := by
  induction ops with
  | nil => simp
  | cons op rest ih =>
    simp only [List.map_cons, List.flatten_cons, List.length_append,
      List.length_cons]
    have := length_encEntry op
    omega

/-- Parsing the iterator over a buffer consisting of an arbitrary prefix
followed by encoded entries, starting at the end of the prefix, yields
exactly the entries (values in `Some` non-empty, lengths below 2^32). -/
theorem collect_encEntries (ops : List (List Nat × Option (List Nat))) :
    ∀ (pre : List Nat) (fuel : Nat),
    (∀ op ∈ ops, op.1.length < 2 ^ 32 ∧
      (∀ v, op.2 = some v → v ≠ [] ∧ v.length < 2 ^ 32)) →
    ops.length < fuel →
    WriteBatchIterator.collect fuel (pre ++ (ops.map encEntry).flatten)
      pre.length = ops := by
  induction ops with
  | nil =>
    intro pre fuel _ hfuel
    match fuel, hfuel with
    | fuel + 1, _ =>
      have hnext : WriteBatchIterator.nextAt
          (pre ++ (([] : List (List Nat × Option (List Nat))).map
            encEntry).flatten) pre.length = Option.none := by
        unfold WriteBatchIterator.nextAt
        rw [if_pos (by simp)]
      rw [WriteBatchIterator.collect, hnext]
  | cons op rest ih =>
    intro pre fuel hwf hfuel
    match fuel, hfuel with
    | fuel + 1, hfuel =>
      obtain ⟨hklen, hv⟩ := hwf op (by simp)
      match op, hklen, hv with
      | (k, some v), hklen, hv =>
        obtain ⟨hvne, hvlen⟩ := hv v rfl
        have hvpos : ¬ v.length = 0 :=
          fun h0 => hvne (List.length_eq_zero.mp h0)
        have hne : ¬ pre.length =
            (pre ++ ((((k, some v) :: rest).map encEntry).flatten)).length := by
          simp only [List.length_append, List.map_cons, List.flatten_cons]
          have := length_encEntry (k, some v)
          try simp only [List.length_append]
          omega
        have hnext : WriteBatchIterator.nextAt
            (pre ++ ((((k, some v) :: rest).map encEntry).flatten)) pre.length =
            some ((k, some v), pre.length + 4 + k.length + 4 + v.length) := by
          unfold WriteBatchIterator.nextAt
          rw [if_neg hne]
          dsimp only
          have hshape : pre ++ ((((k, some v) :: rest).map encEntry).flatten) =
              pre ++ (u32_to_be_bytes k.length ++ (k ++ (u32_to_be_bytes v.length
                ++ (v ++ ((rest.map encEntry).flatten))))) := by
            simp [encEntry, List.append_assoc]
          have hread1 : ((pre ++ ((((k, some v) :: rest).map
              encEntry).flatten)).drop pre.length).take 4 =
              u32_to_be_bytes k.length := by
            rw [hshape, List.drop_left, List.take_left'
              (show (u32_to_be_bytes k.length).length = 4 from rfl)]
          rw [hread1, u32_round_trip _ (by simpa using hklen)]
          have hread2 : ((pre ++ ((((k, some v) :: rest).map
              encEntry).flatten)).drop (pre.length + 4)).take k.length = k := by
            rw [hshape, show pre ++ (u32_to_be_bytes k.length ++ (k ++
              (u32_to_be_bytes v.length ++ (v ++ ((rest.map
                encEntry).flatten))))) = (pre ++ u32_to_be_bytes k.length) ++
              (k ++ (u32_to_be_bytes v.length ++ (v ++ ((rest.map
                encEntry).flatten)))) from by simp [List.append_assoc]]
            rw [List.drop_left' (show (pre ++ u32_to_be_bytes k.length).length =
              pre.length + 4 from by simp [u32_to_be_bytes]), List.take_left]
          rw [hread2]
          have hread3 : ((pre ++ ((((k, some v) :: rest).map
              encEntry).flatten)).drop (pre.length + 4 + k.length)).take 4 =
              u32_to_be_bytes v.length := by
            rw [hshape, show pre ++ (u32_to_be_bytes k.length ++ (k ++
              (u32_to_be_bytes v.length ++ (v ++ ((rest.map
                encEntry).flatten))))) = (pre ++ u32_to_be_bytes k.length ++ k)
              ++ (u32_to_be_bytes v.length ++ (v ++ ((rest.map
                encEntry).flatten))) from by simp [List.append_assoc]]
            rw [List.drop_left'
              (show (pre ++ u32_to_be_bytes k.length ++ k).length =
                pre.length + 4 + k.length from by simp [u32_to_be_bytes]; try omega),
              List.take_left'
                (show (u32_to_be_bytes v.length).length = 4 from rfl)]
          rw [hread3, u32_round_trip _ (by simpa using hvlen)]
          rw [if_neg hvpos]
          have hread4 : ((pre ++ ((((k, some v) :: rest).map
              encEntry).flatten)).drop (pre.length + 4 + k.length + 4)).take
              v.length = v := by
            rw [hshape, show pre ++ (u32_to_be_bytes k.length ++ (k ++
              (u32_to_be_bytes v.length ++ (v ++ ((rest.map
                encEntry).flatten))))) = (pre ++ u32_to_be_bytes k.length ++ k
              ++ u32_to_be_bytes v.length) ++ (v ++ ((rest.map
                encEntry).flatten)) from by simp [List.append_assoc]]
            rw [List.drop_left'
              (show (pre ++ u32_to_be_bytes k.length ++ k ++
                u32_to_be_bytes v.length).length =
                pre.length + 4 + k.length + 4 from by
                  simp [u32_to_be_bytes]; try omega),
              List.take_left' (show (v).length = v.length from rfl)]
          rw [hread4]
        rw [WriteBatchIterator.collect, hnext]
        dsimp only
        have hposlen : pre.length + 4 + k.length + 4 + v.length =
            (pre ++ encEntry (k, some v)).length := by
          simp [encEntry, u32_to_be_bytes]
          omega
        have hassoc : pre ++ ((((k, some v) :: rest).map encEntry).flatten) =
            (pre ++ encEntry (k, some v)) ++ ((rest.map encEntry).flatten) := by
          simp [List.append_assoc]
        rw [hposlen, hassoc, ih (pre ++ encEntry (k, some v)) fuel
          (fun o ho => hwf o (by simp [ho])) (by simpa using hfuel)]
      | (k, Option.none), hklen, hv =>
        have hne : ¬ pre.length =
            (pre ++ ((((k, Option.none) :: rest).map encEntry).flatten)).length := by
          simp only [List.length_append, List.map_cons, List.flatten_cons]
          have := length_encEntry (k, Option.none)
          try simp only [List.length_append]
          omega
        have hnext : WriteBatchIterator.nextAt
            (pre ++ ((((k, Option.none) :: rest).map encEntry).flatten))
            pre.length =
            some ((k, Option.none), pre.length + 4 + k.length + 4) := by
          unfold WriteBatchIterator.nextAt
          rw [if_neg hne]
          dsimp only
          have hshape : pre ++ ((((k, Option.none) :: rest).map
              encEntry).flatten) =
              pre ++ (u32_to_be_bytes k.length ++ (k ++ (u32_to_be_bytes 0
                ++ ((rest.map encEntry).flatten)))) := by
            simp [encEntry, List.append_assoc]
          have hread1 : ((pre ++ ((((k, Option.none) :: rest).map
              encEntry).flatten)).drop pre.length).take 4 =
              u32_to_be_bytes k.length := by
            rw [hshape, List.drop_left, List.take_left'
              (show (u32_to_be_bytes k.length).length = 4 from rfl)]
          rw [hread1, u32_round_trip _ (by simpa using hklen)]
          have hread2 : ((pre ++ ((((k, Option.none) :: rest).map
              encEntry).flatten)).drop (pre.length + 4)).take k.length = k := by
            rw [hshape, show pre ++ (u32_to_be_bytes k.length ++ (k ++
              (u32_to_be_bytes 0 ++ ((rest.map encEntry).flatten)))) =
              (pre ++ u32_to_be_bytes k.length) ++ (k ++ (u32_to_be_bytes 0 ++
                ((rest.map encEntry).flatten))) from by
              simp [List.append_assoc]]
            rw [List.drop_left' (show (pre ++ u32_to_be_bytes k.length).length =
              pre.length + 4 from by simp [u32_to_be_bytes]), List.take_left]
          rw [hread2]
          have hread3 : ((pre ++ ((((k, Option.none) :: rest).map
              encEntry).flatten)).drop (pre.length + 4 + k.length)).take 4 =
              u32_to_be_bytes 0 := by
            rw [hshape, show pre ++ (u32_to_be_bytes k.length ++ (k ++
              (u32_to_be_bytes 0 ++ ((rest.map encEntry).flatten)))) =
              (pre ++ u32_to_be_bytes k.length ++ k) ++ (u32_to_be_bytes 0 ++
                ((rest.map encEntry).flatten)) from by simp [List.append_assoc]]
            rw [List.drop_left'
              (show (pre ++ u32_to_be_bytes k.length ++ k).length =
                pre.length + 4 + k.length from by simp [u32_to_be_bytes]; try omega),
              List.take_left' (show (u32_to_be_bytes 0).length = 4 from rfl)]
          rw [hread3, u32_round_trip _ (by norm_num)]
          rw [if_pos rfl]
        rw [WriteBatchIterator.collect, hnext]
        dsimp only
        have hposlen : pre.length + 4 + k.length + 4 =
            (pre ++ encEntry (k, Option.none)).length := by
          simp [encEntry, u32_to_be_bytes]
          omega
        have hassoc : pre ++ ((((k, Option.none) :: rest).map
            encEntry).flatten) =
            (pre ++ encEntry (k, Option.none)) ++
              ((rest.map encEntry).flatten) := by
          simp [List.append_assoc]
        rw [hposlen, hassoc, ih (pre ++ encEntry (k, Option.none)) fuel
          (fun o ho => hwf o (by simp [ho])) (by simpa using hfuel)]

theorem value_pad_eq (value : List Nat) :
    (if 0 < value.length then value else []) = value := by
  cases value <;> simp

theorem insert_or_update_entries (wb : WriteBatch) (key value : List Nat)
    (n : Nat) (tail : List Nat)
    (h : wb.entries = u32_to_be_bytes (n % 2 ^ 32) ++ tail) :
    (wb.insert_or_update key value).entries =
      u32_to_be_bytes ((n + 1) % 2 ^ 32) ++
        (tail ++ encEntry (key, some value)) := by
  unfold WriteBatch.insert_or_update WriteBatch.increment_count WriteBatch.count
  dsimp only
  rw [h]
  have htake : ((u32_to_be_bytes (n % 2 ^ 32) ++ tail ++
      u32_to_be_bytes key.length ++ key ++ u32_to_be_bytes value.length ++
      (if 0 < value.length then value else []))).take 4 =
      u32_to_be_bytes (n % 2 ^ 32) := by
    rw [show u32_to_be_bytes (n % 2 ^ 32) ++ tail ++
      u32_to_be_bytes key.length ++ key ++ u32_to_be_bytes value.length ++
      (if 0 < value.length then value else []) =
      u32_to_be_bytes (n % 2 ^ 32) ++ (tail ++
        (u32_to_be_bytes key.length ++ (key ++ (u32_to_be_bytes value.length ++
        (if 0 < value.length then value else []))))) from by
      simp [List.append_assoc]]
    rw [List.take_left' (show (u32_to_be_bytes (n % 2 ^ 32)).length = 4 from rfl)]
  rw [htake, u32_round_trip _ (Nat.mod_lt _ (by norm_num)), Nat.mod_add_mod]
  have hdrop : ((u32_to_be_bytes (n % 2 ^ 32) ++ tail ++
      u32_to_be_bytes key.length ++ key ++ u32_to_be_bytes value.length ++
      (if 0 < value.length then value else []))).drop 4 =
      tail ++ (u32_to_be_bytes key.length ++ (key ++
        (u32_to_be_bytes value.length ++
          (if 0 < value.length then value else [])))) := by
    rw [show u32_to_be_bytes (n % 2 ^ 32) ++ tail ++
      u32_to_be_bytes key.length ++ key ++ u32_to_be_bytes value.length ++
      (if 0 < value.length then value else []) =
      u32_to_be_bytes (n % 2 ^ 32) ++ (tail ++
        (u32_to_be_bytes key.length ++ (key ++ (u32_to_be_bytes value.length ++
        (if 0 < value.length then value else []))))) from by
      simp [List.append_assoc]]
    rw [List.drop_left' (show (u32_to_be_bytes (n % 2 ^ 32)).length = 4 from rfl)]
  rw [hdrop, value_pad_eq]
  simp [encEntry, List.append_assoc]

theorem applyOps_step_some (wb : WriteBatch) (key value : List Nat)
    (ops : List (List Nat × Option (List Nat))) :
    applyOps wb (ops ++ [(key, some value)]) =
      (applyOps wb ops).insert_or_update key value := by
  unfold applyOps
  rw [List.foldl_append]
  rfl

theorem applyOps_step_none (wb : WriteBatch) (key : List Nat)
    (ops : List (List Nat × Option (List Nat))) :
    applyOps wb (ops ++ [(key, Option.none)]) =
      (applyOps wb ops).delete key := by
  unfold applyOps
  rw [List.foldl_append]
  rfl

/-- Structure of a write batch built by applying a sequence of operations to
`WriteBatch::new`: a big-endian count (wrapping modulo 2^32), twelve reserved
zero bytes, then the packed encoded entries. -/
theorem applyOps_entries (ops : List (List Nat × Option (List Nat))) :
    (applyOps WriteBatch.new ops).entries =
      u32_to_be_bytes (ops.length % 2 ^ 32) ++
        (List.replicate 12 0 ++ (ops.map encEntry).flatten) := by
  induction ops using List.reverseRecOn with
  | nil => decide
  | append_singleton ops op ih =>
    match op with
    | (key, some value) =>
      rw [applyOps_step_some]
      rw [insert_or_update_entries _ key value ops.length _ ih]
      simp only [List.length_append, List.length_cons, List.length_nil,
        List.map_append, List.flatten_append, List.map_cons, List.map_nil,
        List.flatten_cons, List.flatten_nil, List.append_nil,
        List.append_assoc]
    | (key, Option.none) =>
      rw [applyOps_step_none, WriteBatch.delete]
      rw [insert_or_update_entries _ key [] ops.length _ ih]
      have henc : encEntry (key, some ([] : List Nat)) =
          encEntry (key, Option.none) ++ [] := by
        simp [encEntry]
      rw [henc]
      simp only [List.length_append, List.length_cons, List.length_nil,
        List.map_append, List.flatten_append, List.map_cons, List.map_nil,
        List.flatten_cons, List.flatten_nil, List.append_nil,
        List.append_assoc]

theorem applyOps_count (ops : List (List Nat × Option (List Nat))) :
    (applyOps WriteBatch.new ops).count = ops.length % 2 ^ 32 := by
  rw [WriteBatch.count, applyOps_entries]
  rw [List.take_left'
    (show (u32_to_be_bytes (ops.length % 2 ^ 32)).length = 4 from rfl)]
  exact u32_round_trip _ (Nat.mod_lt _ (by norm_num))

/-- C6 counterexample: a `Some` operation carrying an empty value is read
back as a tombstone (`None`), so iterating the batch does not yield the
original operation sequence. -/
theorem c6_counterexample :
    (applyOps WriteBatch.new [([97], some [])]).iterToList ≠
      [([97], some [])] := by
  decide

/-- C6 (amended): for operations with non-empty keys, non-empty `Some`
values, lengths below 2^32 and fewer than 2^32 operations, iterating the
batch yields exactly the operation sequence and `count()` equals the number
of operations. -/
theorem c6_amended_round_trip (ops : List (List Nat × Option (List Nat)))
    (hwf : ∀ op ∈ ops, op.1 ≠ [] ∧ op.1.length < 2 ^ 32 ∧
      (∀ v, op.2 = some v → v ≠ [] ∧ v.length < 2 ^ 32))
    (hlen : ops.length < 2 ^ 32) :
    (applyOps WriteBatch.new ops).iterToList = ops ∧
    (applyOps WriteBatch.new ops).count = ops.length := by
  constructor
  · rw [WriteBatch.iterToList]
    have hentries := applyOps_entries ops
    have hpre : (applyOps WriteBatch.new ops).entries =
        (u32_to_be_bytes (ops.length % 2 ^ 32) ++ List.replicate 12 0) ++
          (ops.map encEntry).flatten := by
      rw [hentries, List.append_assoc]
    have hpos : WB_HEADER_SIZE =
        (u32_to_be_bytes (ops.length % 2 ^ 32) ++
          List.replicate 12 0).length := by
      simp [u32_to_be_bytes, WB_HEADER_SIZE]
    have hfuel : ops.length < (applyOps WriteBatch.new ops).entries.length := by
      rw [hentries]
      have := length_le_flatten_encEntry ops
      simp only [List.length_append, List.length_replicate]
      omega
    rw [hpos, hpre]
    exact collect_encEntries ops _ _
      (fun op hop => ⟨(hwf op hop).2.1, (hwf op hop).2.2⟩)
      (by rw [← hpre]; exact hfuel)
  · rw [applyOps_count, Nat.mod_eq_of_lt hlen]

theorem c6_witness :
    (applyOps WriteBatch.new [([97], some [5])]).iterToList =
      [([97], some [5])] ∧
    (applyOps WriteBatch.new [([97], some [5])]).count = 1 :=
  c6_amended_round_trip [([97], some [5])]
    (by
      intro op hop
      simp only [List.mem_singleton] at hop
      subst hop
      refine ⟨by decide, by decide, ?_⟩
      intro v hv
      cases hv
      exact ⟨by decide, by decide⟩)
    (by decide)

/-- C10: both `insert_or_update` and `delete` accept a zero-length key:
the entry is encoded with `key_len = 0`, the count is incremented, and
iteration yields the empty key back with the corresponding optional
value. -/
theorem c10_empty_key_accepted (v : List Nat) (hv : v ≠ [])
    (hlen : v.length < 2 ^ 32) :
    (WriteBatch.new.insert_or_update [] v).count = 1 ∧
    ((WriteBatch.new.insert_or_update [] v).entries.drop
      WB_HEADER_SIZE).take 4 = u32_to_be_bytes 0 ∧
    (WriteBatch.new.insert_or_update [] v).iterToList = [([], some v)] ∧
    (WriteBatch.new.delete []).count = 1 ∧
    (WriteBatch.new.delete []).iterToList = [([], Option.none)] := by
  have hins : WriteBatch.new.insert_or_update [] v =
      applyOps WriteBatch.new [([], some v)] := rfl
  have hdel : WriteBatch.new.delete [] =
      applyOps WriteBatch.new [([], Option.none)] := rfl
  have hwf1 : ∀ op ∈ [(([] : List Nat), some v)], op.1.length < 2 ^ 32 ∧
      (∀ w, op.2 = some w → w ≠ [] ∧ w.length < 2 ^ 32) := by
    intro op hop
    simp only [List.mem_singleton] at hop
    subst hop
    refine ⟨by simp, ?_⟩
    intro w hw
    cases hw
    exact ⟨hv, hlen⟩
  have hwf2 : ∀ op ∈ [(([] : List Nat), (Option.none : Option (List Nat)))],
      op.1.length < 2 ^ 32 ∧
      (∀ w, op.2 = some w → w ≠ [] ∧ w.length < 2 ^ 32) := by
    intro op hop
    simp only [List.mem_singleton] at hop
    subst hop
    refine ⟨by simp, ?_⟩
    intro w hw
    cases hw
  refine ⟨?_, ?_, ?_, ?_, ?_⟩
  · rw [hins, applyOps_count]
    simp
  · rw [hins, applyOps_entries]
    rw [show u32_to_be_bytes (([(([] : List Nat), some v)]).length % 2 ^ 32) ++
      (List.replicate 12 0 ++
        (([(([] : List Nat), some v)]).map encEntry).flatten) =
      (u32_to_be_bytes (([(([] : List Nat), some v)]).length % 2 ^ 32) ++
        List.replicate 12 0) ++
        (([(([] : List Nat), some v)]).map encEntry).flatten from by
      rw [List.append_assoc]]
    rw [List.drop_left' (by simp [u32_to_be_bytes, WB_HEADER_SIZE])]
    rw [show (([(([] : List Nat), some v)]).map encEntry).flatten =
      u32_to_be_bytes 0 ++ (u32_to_be_bytes v.length ++ v) from by
      simp [encEntry]]
    rw [List.take_left' (show (u32_to_be_bytes 0).length = 4 from rfl)]
  · rw [hins, WriteBatch.iterToList]
    have hentries := applyOps_entries [(([] : List Nat), some v)]
    have hpre : (applyOps WriteBatch.new [(([] : List Nat), some v)]).entries =
        (u32_to_be_bytes (([(([] : List Nat), some v)]).length % 2 ^ 32) ++
          List.replicate 12 0) ++
          (([(([] : List Nat), some v)]).map encEntry).flatten := by
      rw [hentries, List.append_assoc]
    have hfuel : ([(([] : List Nat), some v)]).length <
        (applyOps WriteBatch.new [(([] : List Nat), some v)]).entries.length := by
      rw [hentries]
      have := length_le_flatten_encEntry [(([] : List Nat), some v)]
      simp only [List.length_append, List.length_replicate]
      omega
    rw [show WB_HEADER_SIZE =
      (u32_to_be_bytes (([(([] : List Nat), some v)]).length % 2 ^ 32) ++
        List.replicate 12 0).length from by
      simp [u32_to_be_bytes, WB_HEADER_SIZE]]
    rw [hpre]
    exact collect_encEntries _ _ _ hwf1 (by rw [← hpre]; exact hfuel)
  · rw [hdel, applyOps_count]
    decide
  · rw [hdel, WriteBatch.iterToList]
    have hentries := applyOps_entries
      [(([] : List Nat), (Option.none : Option (List Nat)))]
    have hpre : (applyOps WriteBatch.new
        [(([] : List Nat), (Option.none : Option (List Nat)))]).entries =
        (u32_to_be_bytes
          (([(([] : List Nat), (Option.none : Option (List Nat)))]).length %
            2 ^ 32) ++ List.replicate 12 0) ++
          (([(([] : List Nat),
            (Option.none : Option (List Nat)))]).map encEntry).flatten := by
      rw [hentries, List.append_assoc]
    have hfuel : ([(([] : List Nat),
        (Option.none : Option (List Nat)))]).length <
        (applyOps WriteBatch.new [(([] : List Nat),
          (Option.none : Option (List Nat)))]).entries.length := by
      rw [hentries]
      have := length_le_flatten_encEntry
        [(([] : List Nat), (Option.none : Option (List Nat)))]
      simp only [List.length_append, List.length_replicate]
      omega
    rw [show WB_HEADER_SIZE =
      (u32_to_be_bytes
        (([(([] : List Nat), (Option.none : Option (List Nat)))]).length %
          2 ^ 32) ++ List.replicate 12 0).length from by
      simp [u32_to_be_bytes, WB_HEADER_SIZE]]
    rw [hpre]
    exact collect_encEntries _ _ _ hwf2 (by rw [← hpre]; exact hfuel)

theorem c10_witness :
    (WriteBatch.new.insert_or_update [] [5]).count = 1 ∧
    ((WriteBatch.new.insert_or_update [] [5]).entries.drop
      WB_HEADER_SIZE).take 4 = u32_to_be_bytes 0 ∧
    (WriteBatch.new.insert_or_update [] [5]).iterToList = [([], some [5])] ∧
    (WriteBatch.new.delete []).count = 1 ∧
    (WriteBatch.new.delete []).iterToList = [([], Option.none)] :=
  c10_empty_key_accepted [5] (by decide) (by decide)

/-- C9 counterexample: an 8-byte slice whose embedded size field (2) exceeds
the single remaining payload byte makes the payload sub-slice in
`from_serialized_bytes` go out of bounds — a panic in the Rust code,
`Option.none` in the model — so the function is not total. -/
theorem c9_counterexample :
    LogRecord.from_serialized_bytes [0, 0, 0, 0, 0, 2, 4, 42] = Option.none := by
  decide

/-- C9 (amended): `from_serialized_bytes` returns a value (decoded record or
error) — rather than panicking — whenever the input slice is at most 65,535
bytes long and the embedded size field fits in the slice; on success the
decoded fields are the big-endian header fields and the payload sub-slice. -/
theorem c9_amended_totality (bytes : List Nat)
    (hlen : bytes.length ≤ 65535)
    (hsize : LOG_RECORD_HEADER_SIZE +
      u16_from_be_bytes ((bytes.drop 4).take 2) ≤ bytes.length) :
    (LogRecord.from_serialized_bytes bytes).isSome ∧
    (bytes.length < MIN_RECORD_SIZE →
      LogRecord.from_serialized_bytes bytes =
        some (.error (.walRecordTooSmall bytes.length MIN_RECORD_SIZE))) ∧
    (∀ r, LogRecord.from_serialized_bytes bytes = some (.ok r) →
      r.size = u16_from_be_bytes ((bytes.drop 4).take 2) ∧
      r.crc = u32_from_be_bytes (bytes.take 4) ∧
      r.payload = (bytes.drop LOG_RECORD_HEADER_SIZE).take r.size ∧
      RecordType.from_u8 (u8_from_be_bytes ((bytes.drop 6).take 1)) =
        some r.rtype) := by
  unfold LogRecord.from_serialized_bytes
  rw [if_neg (by omega)]
  by_cases hsmall : bytes.length < MIN_RECORD_SIZE
  · rw [if_pos hsmall]
    refine ⟨rfl, fun _ => rfl, ?_⟩
    intro r hr
    cases hr
  · rw [if_neg hsmall]
    dsimp only
    cases hrt : RecordType.from_u8 (u8_from_be_bytes ((bytes.drop 6).take 1)) with
    | none =>
      dsimp only
      refine ⟨rfl, fun h => absurd h hsmall, ?_⟩
      intro r hr
      cases hr
    | some rtype =>
      dsimp only
      rw [if_pos hsize]
      refine ⟨rfl, fun h => absurd h hsmall, ?_⟩
      intro r hr
      injection hr with hr
      injection hr with hr
      subst hr
      exact ⟨rfl, rfl, rfl, rfl⟩

theorem c9_witness :
    (LogRecord.from_serialized_bytes [0, 0, 0, 0, 0, 1, 4, 42]).isSome ∧
    (([0, 0, 0, 0, 0, 1, 4, 42] : List Nat).length < MIN_RECORD_SIZE →
      LogRecord.from_serialized_bytes [0, 0, 0, 0, 0, 1, 4, 42] =
        some (.error (.walRecordTooSmall
          ([0, 0, 0, 0, 0, 1, 4, 42] : List Nat).length MIN_RECORD_SIZE))) ∧
    (∀ r, LogRecord.from_serialized_bytes [0, 0, 0, 0, 0, 1, 4, 42] =
        some (.ok r) →
      r.size = u16_from_be_bytes ((([0, 0, 0, 0, 0, 1, 4, 42] :
        List Nat).drop 4).take 2) ∧
      r.crc = u32_from_be_bytes (([0, 0, 0, 0, 0, 1, 4, 42] :
        List Nat).take 4) ∧
      r.payload = (([0, 0, 0, 0, 0, 1, 4, 42] : List Nat).drop
        LOG_RECORD_HEADER_SIZE).take r.size ∧
      RecordType.from_u8 (u8_from_be_bytes ((([0, 0, 0, 0, 0, 1, 4, 42] :
        List Nat).drop 6).take 1)) = some r.rtype) :=
  c9_amended_totality [0, 0, 0, 0, 0, 1, 4, 42] (by decide) (by decide)

/-- C3: `DB::write` routes the batch through the log first: on a log-append
error the memtable is untouched; on success the memtable receives exactly
the batch and the log writer holds the appended state; with no injected I/O
failures the append succeeds precisely for non-empty batch byte images and
the logged records' payloads reassemble the batch's bytes.
`DB::insert_or_update` and `DB::delete` are one-entry batches routed through
`DB::write`. -/
theorem c3_log_append_before_memtable (db : DB) (wb : WriteBatch)
    (k v : List Nat) :
    (∀ e, (db.write wb).1 = .error e →
      (db.write wb).2.memtable = db.memtable) ∧
    ((db.write wb).1 = .ok () →
      (db.write wb).2.memtable = consume_write_batch db.memtable wb ∧
      (db.write wb).2.log_writer = (db.log_writer.append wb.as_bytes).2.1) ∧
    (db.log_writer.fw.failPlan = [] → wb.as_bytes ≠ [] →
      (db.write wb).1 = .ok () ∧
      (db.write wb).2.log_writer.fw.data =
        db.log_writer.fw.data ++ padOf db.log_writer.block_pos ++
          (((db.log_writer.append wb.as_bytes).2.2).map
            LogRecord.serialize).flatten ∧
      (((db.log_writer.append wb.as_bytes).2.2).map
        LogRecord.payload).flatten = wb.as_bytes) ∧
    (db.insert_or_update k v =
      db.write (WriteBatch.new.insert_or_update k v)) ∧
    (db.deleteKey k = db.write (WriteBatch.new.delete k)) := by
  refine ⟨?_, ?_, ?_, rfl, rfl⟩
  · intro e he
    unfold DB.write at he ⊢
    dsimp only at he ⊢
    cases hres : (db.log_writer.append wb.as_bytes).1 with
    | error e' =>
      dsimp only
    | ok u =>
      cases u
      rw [hres] at he
      dsimp only at he
      cases he
  · intro hok
    unfold DB.write at hok ⊢
    dsimp only at hok ⊢
    cases hres : (db.log_writer.append wb.as_bytes).1 with
    | error e' =>
      rw [hres] at hok
      dsimp only at hok
      cases hok
    | ok u =>
      cases u
      dsimp only
      exact ⟨rfl, rfl⟩
  · intro hplan hne
    obtain ⟨hok, hplan', hrecs, hdata, hbp⟩ :=
      append_spec db.log_writer wb.as_bytes hne hplan
    have hwriteok : (db.write wb).1 = .ok () := by
      unfold DB.write
      dsimp only
      rw [hok]
    have hlw : (db.write wb).2.log_writer =
        (db.log_writer.append wb.as_bytes).2.1 := by
      unfold DB.write
      dsimp only
      rw [hok]
    refine ⟨hwriteok, ?_, ?_⟩
    · rw [hlw, hdata]
    · rw [hrecs, map_payload_zipWith _ _ (length_fragTypes _ _)]
      exact flatten_chunksOf wb.as_bytes

theorem append_first_fail (lw : LogWriter) (payload : List Nat)
    (rest : List Bool) (hp : payload ≠ []) (hbp : lw.block_pos = 0)
    (hplan : lw.fw.failPlan = true :: rest) :
    (lw.append payload).1 = .error .ioError := by
  have hpad : lw.add_block_padding = .ok { lw with block_pos := 0 } := by
    unfold LogWriter.add_block_padding
    rw [hbp]
    rw [if_neg (by decide)]
  have hrec : ∀ r : LogRecord,
      ({ lw with block_pos := 0 } : LogWriter).append_record r =
        .error .ioError := by
    intro r
    unfold LogWriter.append_record
    have hfw : ({ lw with block_pos := 0 } : LogWriter).fw.append
        (u32_to_be_bytes r.crc) = .error .ioError := by
      unfold FileWriter.append
      rw [if_neg (by simp [u32_to_be_bytes])]
      rw [show ({ lw with block_pos := 0 } : LogWriter).fw.failPlan =
        true :: rest from hplan]
    rw [hfw]
  have hloop : LogWriter.appendLoop lw (BufferConsumer.new payload) 0 =
      (.error .ioError, { lw with block_pos := 0 }, []) := by
    rw [LogWriter.appendLoop]
    rw [dif_neg (by
      simp only [BufferConsumer.new]
      exact fun h0 => hp (List.length_eq_zero.mp h0))]
    split
    · next e heq =>
      rw [hpad] at heq
      cases heq
    · next lw1 heq =>
      rw [hpad] at heq
      cases heq
      dsimp only
      rw [hrec]
  unfold LogWriter.append
  rw [if_neg hp]
  dsimp only
  rw [hloop]

theorem write_fail_first (mt : Memtable) (wb : WriteBatch)
    (rest : List Bool) (hp : wb.as_bytes ≠ []) :
    ((DB.mk mt (LogWriter.fresh (true :: rest))).write wb).1 =
      .error .ioError := by
  have happend := append_first_fail (LogWriter.fresh (true :: rest))
    wb.as_bytes rest hp rfl rfl
  unfold DB.write
  dsimp only
  rw [happend]

theorem c3_witness :
    ((DB.mk Memtable.new (LogWriter.fresh [true])).write
      (WriteBatch.new.insert_or_update [1] [2])).2.memtable =
      (DB.mk Memtable.new (LogWriter.fresh [true])).memtable ∧
    ((DB.mk Memtable.new (LogWriter.fresh [])).write
      (WriteBatch.new.insert_or_update [1] [2])).1 = .ok () :=
  ⟨(c3_log_append_before_memtable
      (DB.mk Memtable.new (LogWriter.fresh [true]))
      (WriteBatch.new.insert_or_update [1] [2]) [] []).1 .ioError
      (write_fail_first Memtable.new (WriteBatch.new.insert_or_update [1] [2])
        [] (by decide)),
   ((c3_log_append_before_memtable
      (DB.mk Memtable.new (LogWriter.fresh []))
      (WriteBatch.new.insert_or_update [1] [2]) [] []).2.2.1 rfl
      (by decide)).1⟩

theorem flatten_map_getLast {α β : Type _} (f : α → List β) :
    ∀ (rs : List α) (h : rs ≠ []),
    (rs.map f).flatten = (rs.dropLast.map f).flatten ++ f (rs.getLast h) := by
  intro rs h
  conv_lhs => rw [← List.dropLast_append_getLast h]
  rw [List.map_append, List.flatten_append]
  simp

theorem getLast_map_of_ne_nil {α β : Type _} (f : α → β) :
    ∀ (rs : List α) (h : rs ≠ []) (h2 : rs.map f ≠ []),
    (rs.map f).getLast h2 = f (rs.getLast h) := by
  intro rs h h2
  have h4 := List.getLast?_map f rs
  rw [List.getLast?_eq_getLast rs h, List.getLast?_eq_getLast (rs.map f) h2,
    Option.map_some'] at h4
  exact Option.some.inj h4

/-- After any complete `LogWriter::append` with no injected I/O failures the
writer satisfies the block-position invariant: `block_pos ≤ BLOCK_SIZE` and
the last `block_pos` bytes of the file are exactly the final record's
serialization (the bytes written since the last `block_pos` reset). -/
theorem append_tail_invariant (lw : LogWriter) (payload : List Nat)
    (hp : payload ≠ []) (hplan : lw.fw.failPlan = []) :
    (lw.append payload).2.1.block_pos ≤ DEFAULT_BLOCK_SIZE ∧
    (∃ pre r, (lw.append payload).2.1.fw.data = pre ++ LogRecord.serialize r ∧
      (lw.append payload).2.1.block_pos = (LogRecord.serialize r).length) := by
  obtain ⟨hok, hplan', hrecs, hdata, hbp⟩ := append_spec lw payload hp hplan
  have hlastmem := List.getLast_mem (chunksOf_ne_nil payload)
  have hle := chunksOf_length_le payload _ hlastmem
  constructor
  · rw [hbp]
    simp only [LOG_RECORD_HEADER_SIZE, DEFAULT_BLOCK_SIZE] at hle ⊢
    omega
  · have hrne : (lw.append payload).2.2 ≠ [] := by
      rw [hrecs]
      intro h0
      have := congrArg List.length h0
      rw [List.length_zipWith, length_fragTypes] at this
      simp at this
      exact chunksOf_ne_nil payload this
    refine ⟨lw.fw.data ++ padOf lw.block_pos ++
      (((lw.append payload).2.2.dropLast).map LogRecord.serialize).flatten,
      (lw.append payload).2.2.getLast hrne, ?_, ?_⟩
    · rw [hdata, flatten_map_getLast LogRecord.serialize _ hrne]
      simp [List.append_assoc]
    · rw [hbp, length_serialize]
      have hpay : ((lw.append payload).2.2.getLast hrne).payload =
          (chunksOf payload).getLast (chunksOf_ne_nil payload) := by
        have hmap : (lw.append payload).2.2.map LogRecord.payload =
            chunksOf payload := by
          rw [hrecs, map_payload_zipWith _ _ (length_fragTypes _ _)]
        rw [← getLast_map_of_ne_nil LogRecord.payload _ hrne
          (by rw [hmap]; exact chunksOf_ne_nil payload)]
        exact getLast_congr _ _ _ _ hmap
      rw [hpay]
      simp [LOG_RECORD_HEADER_SIZE]

theorem writeAllFrom_tail_invariant :
    ∀ (payloads : List (List Nat)) (lw lwf : LogWriter),
    (∀ p ∈ payloads, p ≠ []) →
    lw.fw.failPlan = [] →
    (lw.block_pos ≤ DEFAULT_BLOCK_SIZE ∧
      (lw.block_pos = 0 ∨
        ∃ pre r, lw.fw.data = pre ++ LogRecord.serialize r ∧
          lw.block_pos = (LogRecord.serialize r).length)) →
    writeAllFrom lw payloads = .ok lwf →
    lwf.block_pos ≤ DEFAULT_BLOCK_SIZE ∧
    (lwf.block_pos = 0 ∨
      ∃ pre r, lwf.fw.data = pre ++ LogRecord.serialize r ∧
        lwf.block_pos = (LogRecord.serialize r).length) := by
  intro payloads
  induction payloads with
  | nil =>
    intro lw lwf _ _ hinv hw
    unfold writeAllFrom at hw
    cases hw
    exact hinv
  | cons p ps ih =>
    intro lw lwf hps hplan hinv hw
    have hp : p ≠ [] := hps p (by simp)
    obtain ⟨hok, hplan', hrecs, hdata, hbp⟩ := append_spec lw p hp hplan
    unfold writeAllFrom at hw
    dsimp only at hw
    rw [hok] at hw
    have hinv' := append_tail_invariant lw p hp hplan
    exact ih (lw.append p).2.1 lwf (fun q hq => hps q (by simp [hq])) hplan'
      ⟨hinv'.1, Or.inr hinv'.2⟩ hw

/-- C5 (amended): after every sequence of complete `LogWriter::append`
calls on a fresh writer (no injected I/O failures), `block_pos` lies in the
closed range `[0, BLOCK_SIZE]` and equals the number of bytes written since
the last `block_pos` reset: either nothing was ever written (`block_pos =
0`) or the final `block_pos` bytes of the file are exactly the last record's
serialization. -/
theorem c5_amended_block_pos (payloads : List (List Nat)) (lw : LogWriter)
    (hps : ∀ p ∈ payloads, p ≠ [])
    (hw : writeAll payloads = .ok lw) :
    lw.block_pos ≤ DEFAULT_BLOCK_SIZE ∧
    (lw.block_pos = 0 ∨
      ∃ pre r, lw.fw.data = pre ++ LogRecord.serialize r ∧
        lw.block_pos = (LogRecord.serialize r).length) :=
  writeAllFrom_tail_invariant payloads (LogWriter.fresh []) lw hps rfl
    ⟨by simp [LogWriter.fresh, DEFAULT_BLOCK_SIZE], Or.inl rfl⟩ hw

theorem c5_amended_witness :
    (((LogWriter.fresh []).append [1, 2, 3]).2.1.block_pos ≤
      DEFAULT_BLOCK_SIZE) ∧
    ((((LogWriter.fresh []).append [1, 2, 3]).2.1.block_pos = 0) ∨
      ∃ pre r, ((LogWriter.fresh []).append [1, 2, 3]).2.1.fw.data =
          pre ++ LogRecord.serialize r ∧
        ((LogWriter.fresh []).append [1, 2, 3]).2.1.block_pos =
          (LogRecord.serialize r).length) := by
  have hok := (append_spec (LogWriter.fresh []) [1, 2, 3] (by decide) rfl).1
  refine c5_amended_block_pos [[1, 2, 3]]
    ((LogWriter.fresh []).append [1, 2, 3]).2.1 (by decide) ?_
  unfold writeAll writeAllFrom
  dsimp only
  rw [hok]
  unfold writeAllFrom
  rfl

theorem crossP1_ne_nil : crossP1 ≠ [] := by
  unfold crossP1
  exact replicate_ne_nil _ _ (by omega)

theorem length_crossP1 : crossP1.length = 32760 := by
  unfold crossP1
  rw [List.length_replicate]

theorem length_ser_cross1 :
    ((LogRecord.new RecordType.full crossP1).serialize).length = 32767 := by
  rw [length_serialize,
    show (LogRecord.new RecordType.full crossP1).payload = crossP1 from rfl,
    length_crossP1]

theorem length_ser_cross2 :
    ((LogRecord.new RecordType.full crossP2).serialize).length = 8 := by
  decide

theorem length_crossF : crossF.length = 32776 := by
  unfold crossF
  rw [List.length_append, List.length_append, length_ser_cross1,
    length_ser_cross2]
  decide

theorem writeAllFrom_nil_eq (lw : LogWriter) : writeAllFrom lw [] = .ok lw := rfl

theorem writeAllFrom_cons_ok (lw : LogWriter) (p : List Nat)
    (ps : List (List Nat)) (h : (lw.append p).1 = .ok ()) :
    writeAllFrom lw (p :: ps) = writeAllFrom (lw.append p).2.1 ps := by
  conv_lhs => unfold writeAllFrom
  dsimp only
  rw [h]

theorem writeAll_cross :
    ∃ lw, writeAll [crossP1, crossP2] = .ok lw ∧ lw.fw.data = crossF ∧
      lw.fw.failPlan = [] := by
  obtain ⟨hok1, hplan1, hrecs1, hdata1, hbp1⟩ :=
    append_spec (LogWriter.fresh []) crossP1 crossP1_ne_nil rfl
  have hch1 : chunksOf crossP1 = [crossP1] :=
    chunksOf_small _ (by rw [length_crossP1]; decide)
  rw [hch1] at hrecs1
  have hrecs1' : ((LogWriter.fresh []).append crossP1).2.2 =
      [LogRecord.new RecordType.full crossP1] := hrecs1
  have hgl1 : (chunksOf crossP1).getLast (chunksOf_ne_nil _) = crossP1 :=
    (getLast_congr _ [crossP1] (chunksOf_ne_nil _) (by simp) hch1).trans rfl
  have hbp1' : ((LogWriter.fresh []).append crossP1).2.1.block_pos = 32767 := by
    rw [hbp1, hgl1, length_crossP1]
    decide
  have hdata1' : ((LogWriter.fresh []).append crossP1).2.1.fw.data =
      (LogRecord.new RecordType.full crossP1).serialize := by
    rw [hdata1, hrecs1']
    rw [show (LogWriter.fresh []).fw.data = [] from rfl]
    rw [show padOf (LogWriter.fresh []).block_pos = [] from rfl]
    rw [List.map_cons, List.map_nil, List.flatten_cons, List.flatten_nil]
    rw [List.append_nil, List.append_nil, List.nil_append]
  obtain ⟨hok2, hplan2, hrecs2, hdata2, hbp2⟩ :=
    append_spec ((LogWriter.fresh []).append crossP1).2.1 crossP2
      (by decide) hplan1
  have hch2 : chunksOf crossP2 = [crossP2] := chunksOf_small _ (by decide)
  rw [hch2] at hrecs2
  have hrecs2' :
      (((LogWriter.fresh []).append crossP1).2.1.append crossP2).2.2 =
      [LogRecord.new RecordType.full crossP2] := hrecs2
  have hdata2' :
      (((LogWriter.fresh []).append crossP1).2.1.append crossP2).2.1.fw.data =
      crossF := by
    rw [hdata2, hrecs2', hdata1', hbp1']
    rw [show padOf 32767 = [0] from by decide]
    unfold crossF
    rw [List.map_cons, List.map_nil, List.flatten_cons, List.flatten_nil]
    rw [List.append_nil, List.append_assoc]
  refine ⟨(((LogWriter.fresh []).append crossP1).2.1.append crossP2).2.1,
    ?_, hdata2', hplan2⟩
  unfold writeAll
  rw [writeAllFrom_cons_ok _ _ _ hok1, writeAllFrom_cons_ok _ _ _ hok2,
    writeAllFrom_nil_eq]

theorem len_eq_header_add_payload (r : LogRecord) :
    r.len = LOG_RECORD_HEADER_SIZE + r.payload.length := rfl

theorem cross_decode_first :
    LogRecord.from_serialized_bytes crossF =
      some (.ok (LogRecord.new RecordType.full crossP1)) := by
  unfold crossF
  refine from_serialized_bytes_append _ _ rfl ?_ ?_ ?_ ?_
  · show crc32c crossP1 < 2 ^ 32
    refine crc32c_lt crossP1 (fun b hb => ?_)
    unfold crossP1 at hb
    rw [List.eq_of_mem_replicate hb]
    decide
  · show crossP1.length < 2 ^ 16
    rw [length_crossP1]
    decide
  · rw [length_ser_cross1, List.length_append, length_ser_cross2]
    decide
  · rw [show (LogRecord.new RecordType.full crossP1).payload = crossP1 from rfl,
      length_crossP1]
    omega

theorem next_refill_decode_ok (it : Iter) (r : LogRecord)
    (hmin0 : it.min_record_size_bytes_remaining = false)
    (hmin1 : it.refill.min_record_size_bytes_remaining = true)
    (hdec : LogRecord.from_serialized_bytes
      (it.refill.buf.drop it.refill.curr_idx) = some (.ok r)) :
    it.next = (.record r,
      { it.refill with curr_idx := it.refill.curr_idx + r.len,
                       bytes_remaining := it.refill.bytes_remaining - r.len }) := by
  unfold Iter.next
  rw [hmin0]
  rw [if_neg (by decide : ¬ (false = true))]
  dsimp only
  rw [hmin1]
  rw [if_pos rfl]
  rw [hdec]

theorem next_decode_panic (it : Iter)
    (hmin0 : it.min_record_size_bytes_remaining = true)
    (hdec : LogRecord.from_serialized_bytes (it.buf.drop it.curr_idx) =
      Option.none) :
    it.next = (.panicked, it) := by
  unfold Iter.next
  rw [hmin0]
  rw [if_pos rfl]
  dsimp only
  rw [hmin0]
  rw [if_pos rfl]
  rw [hdec]

theorem cross_first_next :
    (Iter.init crossF).next =
      (.record (LogRecord.new RecordType.full crossP1),
       { fileRest := [], buf := crossF, bytes_remaining := 9,
         bytes_read := 32776, curr_idx := 32767 }) := by
  have htake : crossF.take (DEFAULT_BLOCK_SIZE * 4) = crossF :=
    List.take_of_length_le (by rw [length_crossF]; decide)
  have hdropf : crossF.drop (DEFAULT_BLOCK_SIZE * 4) = [] :=
    List.drop_eq_nil_of_le (by rw [length_crossF]; decide)
  have hrefill : (Iter.init crossF).refill =
      { fileRest := [], buf := crossF, bytes_remaining := 32776,
        bytes_read := 32776, curr_idx := 0 } := by
    unfold Iter.refill Iter.init
    dsimp only
    rw [htake, hdropf, length_crossF]
  have hr1len : (LogRecord.new RecordType.full crossP1).len = 32767 := by
    rw [len_eq_header_add_payload]
    rw [show (LogRecord.new RecordType.full crossP1).payload = crossP1 from rfl]
    rw [length_crossP1]
    decide
  have hmin1 : (Iter.init crossF).refill.min_record_size_bytes_remaining =
      true := by
    rw [hrefill]
    rfl
  have hdec : LogRecord.from_serialized_bytes
      ((Iter.init crossF).refill.buf.drop (Iter.init crossF).refill.curr_idx) =
      some (.ok (LogRecord.new RecordType.full crossP1)) := by
    rw [hrefill]
    dsimp only
    rw [List.drop_zero]
    exact cross_decode_first
  rw [next_refill_decode_ok (Iter.init crossF)
    (LogRecord.new RecordType.full crossP1) rfl hmin1 hdec]
  rw [hrefill, hr1len]
  dsimp only

theorem cross_second_next :
    (Iter.next { fileRest := [], buf := crossF, bytes_remaining := 9,
                 bytes_read := 32776, curr_idx := 32767 }).1 = .panicked := by
  have hdrop2 : crossF.drop 32767 =
      [0] ++ (LogRecord.new RecordType.full crossP2).serialize := by
    unfold crossF
    rw [List.drop_left' length_ser_cross1]
  have hdec2 : LogRecord.from_serialized_bytes
      ([0] ++ (LogRecord.new RecordType.full crossP2).serialize) =
      Option.none := by decide
  rw [next_decode_panic
    { fileRest := [], buf := crossF, bytes_remaining := 9,
      bytes_read := 32776, curr_idx := 32767 } rfl
    (by dsimp only; rw [hdrop2]; exact hdec2)]

theorem cross_boundary_decode :
    LogRecord.from_serialized_bytes (crossF.drop DEFAULT_BLOCK_SIZE) =
      some (.ok (LogRecord.new RecordType.full crossP2)) := by
  have hdrop3 : crossF.drop DEFAULT_BLOCK_SIZE =
      (LogRecord.new RecordType.full crossP2).serialize := by
    unfold crossF
    rw [← List.append_assoc]
    rw [List.drop_left'
      (show ((LogRecord.new RecordType.full crossP1).serialize ++ [0]).length
        = DEFAULT_BLOCK_SIZE from by
          rw [List.length_append, length_ser_cross1]; decide)]
  rw [hdrop3]
  decide

/-- C2 (code bug): the reader does not skip to the block boundary.  On the
file produced by appending a 32,760-byte payload and then a 1-byte payload
(`crossF`), the first `Iter::next` leaves the cursor at 32,767, where fewer
than `MIN_RECORD_SIZE = 8` bytes remain in the current 32,768-byte block,
and the second record sits at the block boundary 32,768 (decoding there
succeeds).  The claimed behaviour is that `next` skips to that boundary;
instead the code decodes at the padding byte 32,767 and panics on an
out-of-bounds payload slice. -/
theorem c2_reader_no_block_skip :
    ((Iter.init crossF).next.1 =
      .record (LogRecord.new RecordType.full crossP1)) ∧
    ((Iter.init crossF).next.2.curr_idx = 32767) ∧
    (DEFAULT_BLOCK_SIZE -
      (Iter.init crossF).next.2.curr_idx % DEFAULT_BLOCK_SIZE <
      MIN_RECORD_SIZE) ∧
    (LogRecord.from_serialized_bytes (crossF.drop DEFAULT_BLOCK_SIZE) =
      some (.ok (LogRecord.new RecordType.full crossP2))) ∧
    (((Iter.init crossF).next.2).next.1 = .panicked) := by
  refine ⟨?_, ?_, ?_, cross_boundary_decode, ?_⟩
  · rw [cross_first_next]
  · rw [cross_first_next]
  · rw [cross_first_next]
    decide
  · rw [cross_first_next]
    exact cross_second_next

theorem runPipeline_record_ready (fuel : Nat) (it it' : Iter)
    (b b' : WriteBatchBuilder) (acc : List (List Nat)) (r : LogRecord)
    (hnext : it.next = (.record r, it'))
    (hacc : b.accumulate_record r = some (.ok b'))
    (hready : b'.is_ready = true) :
    runPipeline (fuel + 1) it b acc =
      runPipeline fuel it' b'.consume (acc ++ [b'.wb.entries]) := by
  conv_lhs => unfold runPipeline
  dsimp only
  rw [hnext]
  dsimp only
  rw [hacc]
  dsimp only
  rw [hready]
  rw [if_pos rfl]

theorem runPipeline_panicked (fuel : Nat) (it : Iter)
    (b : WriteBatchBuilder) (acc : List (List Nat))
    (hnext : it.next.1 = .panicked) :
    runPipeline (fuel + 1) it b acc = Option.none := by
  conv_lhs => unfold runPipeline
  dsimp only
  rw [hnext]

theorem validate_crc_new (t : RecordType) (p : List Nat) :
    (LogRecord.new t p).validate_crc = .ok () := by
  unfold LogRecord.validate_crc
  dsimp only [LogRecord.new]
  rw [if_pos rfl]

theorem accumulate_new_full (b : WriteBatchBuilder) (p : List Nat) :
    b.accumulate_record (LogRecord.new RecordType.full p) =
      some (.ok { wb := { entries := b.wb.entries ++ p }, ready := true }) := by
  unfold WriteBatchBuilder.accumulate_record
  rw [validate_crc_new]
  dsimp only [LogRecord.new]

theorem logRoundTrip_ok (payloads : List (List Nat)) (lw : LogWriter)
    (hw : writeAll payloads = .ok lw) :
    logRoundTrip payloads =
      runPipeline (lw.fw.data.length + 1) (Iter.init lw.fw.data)
        WriteBatchBuilder.new [] := by
  unfold logRoundTrip
  rw [hw]

theorem cross_accumulate :
    WriteBatchBuilder.new.accumulate_record
      (LogRecord.new RecordType.full crossP1) =
      some (.ok { wb := { entries := crossP1 }, ready := true }) := by
  rw [accumulate_new_full]
  rw [show WriteBatchBuilder.new.wb.entries = [] from rfl]
  rw [List.nil_append]

/-- C1 (code bug): the log round-trip fails.  Appending the payload
sequence `[crossP1, crossP2]` (32,760 bytes, then 1 byte) succeeds, and the
first payload is reconstructed, but on the second `Iter::next` the reader
decodes at the block-trailer padding byte instead of the block boundary,
misreads the size field and panics on an out-of-bounds payload slice, so
the recovery pipeline crashes instead of reconstructing `crossP2`. -/
theorem c1_round_trip_fails :
    logRoundTrip [crossP1, crossP2] = Option.none := by
  obtain ⟨lw, hw, hdata, hplan⟩ := writeAll_cross
  rw [logRoundTrip_ok _ _ hw, hdata, length_crossF]
  rw [runPipeline_record_ready 32776 _ _ _ _ _ _ cross_first_next
    cross_accumulate rfl]
  rw [show (32776 : Nat) = 32775 + 1 from rfl]
  rw [runPipeline_panicked 32775 _ _ _ cross_second_next]
